import Mathlib

/-!
Verification of the auditap detection core (`src/app/detection/engine.py`,
`src/app/pipeline/baselines.py`, `src/app/models/*.py`) against its
natural-language specification.

Shallow embedding conventions:
* SQLAlchemy sessions become an explicit `DB` state record holding the four
  row tables the engine reads and writes; `db.add` appends a row. The session
  is created with `autoflush=False` (database.py line 22), so a query issued
  inside a detector sees only rows already flushed when the run started, never
  rows still pending from `db.add`. Each detector therefore threads a fixed
  `visible` snapshot — the anomaly table at its entry — through its existence
  checks. The snapshot at detector entry is faithful: rows appended by an
  earlier detector of the same run are still pending, and they carry an
  `anomaly_type` different from the one the later detector filters on, so
  they can never satisfy its query anyway.
* Python floats (amounts, statistics, confidences) are modelled as `ℚ`;
  machine dates become day numbers in `ℤ` (Python `(d - d2).days` is exact
  integer day arithmetic).
* `variance ** 0.5` is modelled by `Rat.sqrt`, which agrees with the real
  square root whenever the variance is a perfect square of a rational (the
  only case any spec-level statement depends on the numeric value).
* Python `round(x, 2)` (round half to even) is modelled exactly
  by `roundHalfEven`.
* The JSON metadata blobs built with `json.dumps` are modelled as a tagged
  variant `Metadata` holding exactly the fields the engine serialises.
* Columns the engine never reads or writes (surrogate ids of anomalies and
  baselines, timestamps, `description` text, `external_id`, `balance`,
  `due_date`) are omitted; column defaults (`status = "open"`,
  `resolution_notes` NULL, `bill_id` nullable) are kept.
-/

namespace Auditap

/-- The detection-relevant configuration from `app/config.py` `Settings`. -/
structure Settings where
  alert_min_amount : ℚ
  alert_sigma_threshold : ℚ
  duplicate_day_window : ℤ
  baseline_days : ℤ
deriving DecidableEq, Repr

/-- Model of `app/models/bill.py` `Bill`: the columns read by the detection core. -/
structure Bill where
  id : ℕ
  tenant_id : ℕ
  vendor_id : ℕ
  total_amount : ℚ
  txn_date : ℤ
  has_line_items : Bool
deriving DecidableEq, Repr

/-- Model of `app/models/vendor.py` `Vendor`: the columns read by the detection core. -/
structure Vendor where
  id : ℕ
  tenant_id : ℕ
deriving DecidableEq, Repr

/-- Model of `app/models/baseline.py` `VendorBaseline`. `std_amount` is a nullable
column, kept as `Option ℚ`; the remaining statistics are always written
together with the row by `compute_baselines`. -/
structure VendorBaseline where
  vendor_id : ℕ
  window_start : ℤ
  window_end : ℤ
  avg_amount : ℚ
  std_amount : Option ℚ
  min_amount : ℚ
  max_amount : ℚ
  payment_count : ℕ
deriving DecidableEq, Repr

/-- The `metadata_json` blobs the engine serialises with `json.dumps`,
as a tagged variant per anomaly kind. -/
inductive Metadata where
  | duplicate (related_bill_id : ℕ) (duplicate_of : ℕ)
  | priceCreep (z_score : ℚ) (baseline_avg : ℚ) (baseline_std : ℚ)
  | roundNumber (round_value : ℚ)
deriving DecidableEq, Repr

/-- Model of `app/models/anomaly.py` `Anomaly`: the columns the detection core writes,
plus the column defaults `status = "open"` and NULL `resolution_notes`.
`bill_id` is nullable in the schema. -/
structure Anomaly where
  tenant_id : ℕ
  bill_id : Option ℕ
  anomaly_type : String
  severity : String
  amount : ℚ
  confidence_score : ℚ
  metadata_json : Metadata
  should_alert : Bool
  status : String
  resolution_notes : Option String
deriving DecidableEq, Repr

/-- The persistent state a detection run reads and writes. -/
structure DB where
  bills : List Bill
  vendors : List Vendor
  baselines : List VendorBaseline
  anomalies : List Anomaly
deriving DecidableEq, Repr

/-- The `db.query(Anomaly).filter(tenant_id, bill_id, anomaly_type).first()`
existence check shared by all three detectors (engine.py lines 45-53, 96-104,
136-144), as a predicate over an explicit list of anomaly rows: with
`autoflush=False` (database.py line 22) the query reads only the rows visible
at detector entry, never rows still pending from `db.add`. -/
def hasAnomalyIn (anoms : List Anomaly) (tenantId billId : ℕ) (kind : String) :
    Bool :=
  anoms.any fun a =>
    a.tenant_id == tenantId && a.bill_id == some billId && a.anomaly_type == kind

/-- The existence check read off a whole state: used for stating properties of
detector results, and definitionally the check a fresh detector entry sees. -/
def hasAnomaly (db : DB) (tenantId billId : ℕ) (kind : String) : Bool :=
  hasAnomalyIn db.anomalies tenantId billId kind

/-! ### BaselineCalculator (`app/pipeline/baselines.py`) -/

/-- The bill selection of `compute_baselines`: bills of the vendor with
transaction date inside `[start, end]` (baselines.py lines 24-28 and 36-40;
note the query filters on `vendor_id` and dates only). -/
def billsInWindow (bills : List Bill) (vendorId : ℕ) (start endD : ℤ) : List Bill :=
  bills.filter fun b =>
    b.vendor_id == vendorId && decide (start ≤ b.txn_date) && decide (b.txn_date ≤ endD)

/-- SQL `min` over the selected amounts (only used on a non-empty selection). -/
def amountsMin : List ℚ → ℚ
  | [] => 0
  | x :: xs => xs.foldl min x

/-- SQL `max` over the selected amounts (only used on a non-empty selection). -/
def amountsMax : List ℚ → ℚ
  | [] => 0
  | x :: xs => xs.foldl max x

/-- The statistics `compute_baselines` derives for one vendor
(baselines.py lines 17-47): `none` when the selected set is empty, otherwise
count, arithmetic mean, sample standard deviation with the Bessel correction
(`0` when `n = 1`), and min/max. `variance ** 0.5` is `Rat.sqrt` (see header). -/
def vendorStats (bills : List Bill) (vendorId : ℕ) (start endD : ℤ) :
    Option VendorBaseline :=
  let sel := billsInWindow bills vendorId start endD
  if sel.isEmpty then none
  else
    let vals := sel.map (·.total_amount)
    let n := sel.length
    let avg := vals.sum / (n : ℚ)
    let variance :=
      if n > 1 then (vals.map fun x => (x - avg) ^ 2).sum / ((n : ℚ) - 1) else 0
    some { vendor_id := vendorId, window_start := start, window_end := endD,
           avg_amount := avg, std_amount := some (Rat.sqrt variance),
           min_amount := amountsMin vals, max_amount := amountsMax vals,
           payment_count := n }

/-- The `(vendor_id, window_start, window_end)` upsert key filter
(baselines.py lines 48-56). -/
def baselineKeyMatches (vendorId : ℕ) (start endD : ℤ) (r : VendorBaseline) : Bool :=
  r.vendor_id == vendorId && r.window_start == start && r.window_end == endD

/-- Overwriting the statistics of an existing baseline row in place
(baselines.py lines 57-62). -/
def overwriteStats (row r : VendorBaseline) : VendorBaseline :=
  { r with avg_amount := row.avg_amount, std_amount := row.std_amount,
           min_amount := row.min_amount, max_amount := row.max_amount,
           payment_count := row.payment_count }

/-- Updating the row returned by `.first()`: apply `f` to the first list
element satisfying `p`. -/
def replaceFirst (p : α → Bool) (f : α → α) : List α → List α
  | [] => []
  | x :: xs => if p x then f x :: xs else x :: replaceFirst p f xs

/-- The per-vendor body of the `compute_baselines` loop
(baselines.py lines 16-75): skip the vendor when its selection is empty,
otherwise upsert the computed statistics by `(vendor, window_start,
window_end)`, counting only inserts. -/
def computeBaselinesStep (bills : List Bill) (start endD : ℤ) (v : Vendor)
    (acc : List VendorBaseline × ℕ) : List VendorBaseline × ℕ :=
  match vendorStats bills v.id start endD with
  | none => acc
  | some row =>
      if acc.1.any (baselineKeyMatches v.id start endD) then
        (replaceFirst (baselineKeyMatches v.id start endD) (overwriteStats row) acc.1,
         acc.2)
      else
        (acc.1 ++ [row], acc.2 + 1)

/-- Model of `compute_baselines(tenant_id, db)` (baselines.py lines 10-77): compute the
`[today - baseline_days, today]` window statistics for every vendor of the
tenant and upsert them, returning the updated state and the count of newly
inserted baselines. The `db.commit()` on line 76 makes this state observable
even if the rest of the detection run later fails. -/
def compute_baselines (cfg : Settings) (today : ℤ) (tenantId : ℕ) (db : DB) :
    DB × ℕ :=
  let start := today - cfg.baseline_days
  let vendors := db.vendors.filter fun v => v.tenant_id == tenantId
  let res := vendors.foldl
    (fun acc v => computeBaselinesStep db.bills start today v acc) (db.baselines, 0)
  ({ db with baselines := res.1 }, res.2)

/-! ### DuplicateDetector (`_detect_duplicates`, engine.py lines 21-72) -/

/-- Python `round(x, 2)` at integer precision: round half to even. -/
def roundHalfEven (q : ℚ) : ℤ :=
  let f := ⌊q⌋
  let r := q - (f : ℚ)
  if r < 1 / 2 then f
  else if r > 1 / 2 then f + 1
  else if f % 2 = 0 then f else f + 1

/-- Python `round(x, 2)`: round to two decimal places, half to even. -/
def round2 (q : ℚ) : ℚ := (roundHalfEven (100 * q) : ℚ) / 100

/-- The grouping key `(b.vendor_id, round(b.total_amount, 2))`
(engine.py line 32). -/
def dupKey (b : Bill) : ℕ × ℚ := (b.vendor_id, round2 b.total_amount)

/-- Model of `seen.setdefault(key, []).append(...)`: append the bill to the group of its key, preserving dict insertion order of keys and append order inside each
group (engine.py lines 30-34). -/
def addToGroups (b : Bill) :
    List ((ℕ × ℚ) × List Bill) → List ((ℕ × ℚ) × List Bill)
  | [] => [(dupKey b, [b])]
  | g :: rest =>
      if g.1 = dupKey b then (g.1, g.2 ++ [b]) :: rest else g :: addToGroups b rest

/-- Building the `seen` dict (engine.py lines 30-34). -/
def groupBills (bills : List Bill) : List ((ℕ × ℚ) × List Bill) :=
  bills.foldl (fun gs b => addToGroups b gs) []

/-- The duplicate `Anomaly` constructed on engine.py lines 56-68, with the
column defaults of `app/models/anomaly.py`. -/
def mkDuplicateAnomaly (cfg : Settings) (tenantId : ℕ) (b rel : Bill) : Anomaly :=
  { tenant_id := tenantId, bill_id := some b.id, anomaly_type := "duplicate",
    severity := if b.total_amount ≥ 1000 then "high" else "medium",
    amount := b.total_amount, confidence_score := 95 / 100,
    metadata_json := .duplicate rel.id b.id,
    should_alert := decide (b.total_amount ≥ cfg.alert_min_amount),
    status := "open", resolution_notes := none }

/-- One iteration of the inner pair loop (engine.py lines 43-70): if the two
dates are within the window, check the `visible` snapshot for an existing
`(tenant, bill, "duplicate")` anomaly on the first bill of the pair and
insert one if absent. With `autoflush=False` the query cannot see rows added
earlier in the same run, hence the check reads `visible`, not the
accumulated state. -/
def dupPairStep (cfg : Settings) (tenantId : ℕ) (visible : List Anomaly)
    (b b2 : Bill) (acc : DB × ℕ) : DB × ℕ :=
  if |b.txn_date - b2.txn_date| ≤ cfg.duplicate_day_window then
    if hasAnomalyIn visible tenantId b.id "duplicate" then acc
    else
      ({ acc.1 with
          anomalies := acc.1.anomalies ++ [mkDuplicateAnomaly cfg tenantId b b2] },
       acc.2 + 1)
  else acc

/-- The inner `for j` loop for a fixed `i`-th bill: all pairs `(i, j)` with
`j > i` (engine.py lines 40-42 restrict to `i < j`). -/
def dupInner (cfg : Settings) (tenantId : ℕ) (visible : List Anomaly) (b : Bill)
    (js : List Bill) (acc : DB × ℕ) : DB × ℕ :=
  js.foldl (fun a b2 => dupPairStep cfg tenantId visible b b2 a) acc

/-- The outer `for i` loop over the list of one group (engine.py lines 39-71). -/
def dupOuter (cfg : Settings) (tenantId : ℕ) (visible : List Anomaly) :
    List Bill → DB × ℕ → DB × ℕ
  | [], acc => acc
  | b :: rest, acc =>
      dupOuter cfg tenantId visible rest (dupInner cfg tenantId visible b rest acc)

/-- One iteration of the loop over `seen` groups (engine.py lines 36-38):
groups of fewer than two bills are skipped. -/
def dupGroupStep (cfg : Settings) (tenantId : ℕ) (visible : List Anomaly)
    (acc : DB × ℕ) (g : (ℕ × ℚ) × List Bill) : DB × ℕ :=
  if g.2.length < 2 then acc else dupOuter cfg tenantId visible g.2 acc

/-- Order on bills by `txn_date` ascending, the `order_by` of engine.py line 27. -/
def dateLE (a b : Bill) : Prop := a.txn_date ≤ b.txn_date

instance : DecidableRel dateLE := fun a b => Int.decLe a.txn_date b.txn_date

instance : IsTotal Bill dateLE := ⟨fun a b => Int.le_total a.txn_date b.txn_date⟩

instance : IsTrans Bill dateLE := ⟨fun _ _ _ h1 h2 => le_trans h1 h2⟩

/-- The bill query of engine.py lines 24-29: the bills of the tenant in
ascending `txn_date` order. -/
def tenantBillsSorted (tenantId : ℕ) (db : DB) : List Bill :=
  List.insertionSort dateLE (db.bills.filter fun b => b.tenant_id == tenantId)

/-- Model of `_detect_duplicates(tenant_id, db)` (engine.py lines 21-72): group the
bills of the tenant, in ascending `txn_date` order, by `(vendor_id, rounded
amount)`; for every in-order pair inside a group whose dates are within
`duplicate_day_window` days, flag the first bill of the pair unless it
already carries a `duplicate` anomaly in the snapshot visible at entry. -/
def detect_duplicates (cfg : Settings) (tenantId : ℕ) (db : DB) : DB × ℕ :=
  (groupBills (tenantBillsSorted tenantId db)).foldl
    (dupGroupStep cfg tenantId db.anomalies) (db, 0)

/-! ### PriceOutlierDetector (`_detect_price_outliers`, engine.py lines 75-121) -/

/-- The `VendorBaseline ⋈ Vendor` join restricted to the tenant
(engine.py lines 78-83). -/
def joinBaselines (db : DB) (tenantId : ℕ) : List (VendorBaseline × Vendor) :=
  db.baselines.foldr
    (fun bl acc =>
      ((db.vendors.filter fun v => v.id == bl.vendor_id && v.tenant_id == tenantId).map
        fun v => (bl, v)) ++ acc)
    []

/-- The price-creep `Anomaly` constructed on engine.py lines 107-118, with the
column defaults of `app/models/anomaly.py`. -/
def mkPriceCreepAnomaly (cfg : Settings) (tenantId : ℕ) (b : Bill)
    (z avg std : ℚ) : Anomaly :=
  { tenant_id := tenantId, bill_id := some b.id, anomaly_type := "price_creep",
    severity := if z ≥ 3 then "high" else "medium",
    amount := b.total_amount,
    confidence_score := min (99 / 100) (1 / 2 + z / 10),
    metadata_json := .priceCreep z avg std,
    should_alert :=
      decide (b.total_amount ≥ cfg.alert_min_amount ∨ z ≥ cfg.alert_sigma_threshold),
    status := "open", resolution_notes := none }

/-- One iteration of the bill loop for a fixed baseline
(engine.py lines 94-120): the existence check reads the `visible` snapshot,
never rows pending from `db.add` of the same run (`autoflush=False`). -/
def outlierBillStep (cfg : Settings) (tenantId : ℕ) (visible : List Anomaly)
    (avg std : ℚ) (acc : DB × ℕ) (b : Bill) : DB × ℕ :=
  let z := (b.total_amount - avg) / std
  if hasAnomalyIn visible tenantId b.id "price_creep" then acc
  else
    ({ acc.1 with
        anomalies := acc.1.anomalies ++ [mkPriceCreepAnomaly cfg tenantId b z avg std] },
     acc.2 + 1)

/-- The bills a baseline flags: same vendor, amount strictly above
`mean + σ·std` (engine.py lines 88-93; the query filters on `vendor_id` and
amount only). -/
def flaggedBills (bills : List Bill) (vendorId : ℕ) (threshold : ℚ) : List Bill :=
  bills.filter fun b => b.vendor_id == vendorId && decide (b.total_amount > threshold)

/-- One iteration of the baseline loop (engine.py lines 85-120): baselines
with NULL or non-positive standard deviation are skipped. -/
def outlierBaselineStep (cfg : Settings) (tenantId : ℕ) (bills : List Bill)
    (visible : List Anomaly) (acc : DB × ℕ) (p : VendorBaseline × Vendor) :
    DB × ℕ :=
  match p.1.std_amount with
  | none => acc
  | some std =>
      if std ≤ 0 then acc
      else
        let threshold := p.1.avg_amount + cfg.alert_sigma_threshold * std
        (flaggedBills bills p.2.id threshold).foldl
          (outlierBillStep cfg tenantId visible p.1.avg_amount std) acc

/-- Model of `_detect_price_outliers(tenant_id, db)` (engine.py lines 75-121). -/
def detect_price_outliers (cfg : Settings) (tenantId : ℕ) (db : DB) : DB × ℕ :=
  (joinBaselines db tenantId).foldl
    (outlierBaselineStep cfg tenantId db.bills db.anomalies) (db, 0)

/-- The rows the specification says one baseline-vendor pair yields, written
from the words of the spec for comparison with the detector: nothing without
a strictly positive standard deviation; otherwise one `price_creep` row per
bill of the vendor whose amount strictly exceeds `mean + sigma * std` and
which has no existing `price_creep` anomaly for `(tenant, bill)`, carrying
`z = (amount - mean) / std`, severity `high` iff `z ≥ 3`, confidence
`0.5 + z / 10` capped at `0.99`, metadata with z and the baseline statistics,
and alert-worthiness iff the amount reaches `alert_min_amount` or z reaches
the sigma threshold. -/
def specPriceCreepRowsFor (cfg : Settings) (tenantId : ℕ) (bills : List Bill)
    (visible : List Anomaly) (p : VendorBaseline × Vendor) : List Anomaly :=
  match p.1.std_amount with
  | none => []
  | some std =>
      if std ≤ 0 then []
      else
        ((flaggedBills bills p.2.id
            (p.1.avg_amount + cfg.alert_sigma_threshold * std)).filter fun b =>
          !hasAnomalyIn visible tenantId b.id "price_creep").map fun b =>
          let z := (b.total_amount - p.1.avg_amount) / std
          { tenant_id := tenantId, bill_id := some b.id,
            anomaly_type := "price_creep",
            severity := if z ≥ 3 then "high" else "medium",
            amount := b.total_amount,
            confidence_score := min (99 / 100) (1 / 2 + z / 10),
            metadata_json := .priceCreep z p.1.avg_amount std,
            should_alert := decide (b.total_amount ≥ cfg.alert_min_amount ∨
              z ≥ cfg.alert_sigma_threshold),
            status := "open", resolution_notes := none }

/-- The complete list of rows the spec says one price-outlier pass over a
state appends: the pair description above, joined over the baseline-vendor
pairs of the tenant, with the existence checks reading the anomaly table as
it stands at entry. -/
def specPriceCreepRows (cfg : Settings) (tenantId : ℕ) (db : DB) :
    List Anomaly :=
  (joinBaselines db tenantId).bind
    (specPriceCreepRowsFor cfg tenantId db.bills db.anomalies)

/-! ### RoundNumberDetector (`_detect_round_numbers`, engine.py lines 124-160) -/

/-- Python `amt % 500 == 0` on an exact rational: the amount is an integer
multiple of 500. -/
def isMultipleOf500 (q : ℚ) : Bool := (q / 500).den == 1

/-- The round-number `Anomaly` constructed on engine.py lines 147-157, with
the column defaults of `app/models/anomaly.py`. -/
def mkRoundNumberAnomaly (cfg : Settings) (tenantId : ℕ) (b : Bill) : Anomaly :=
  { tenant_id := tenantId, bill_id := some b.id, anomaly_type := "round_number",
    severity := "low", amount := b.total_amount, confidence_score := 6 / 10,
    metadata_json := .roundNumber b.total_amount,
    should_alert := decide (b.total_amount ≥ cfg.alert_min_amount),
    status := "open", resolution_notes := none }

/-- One iteration of the bill loop (engine.py lines 128-159): skip bills with
line items, bills below `alert_min_amount`, amounts not a multiple of 500,
and bills already carrying a `round_number` anomaly in the `visible` snapshot
(`autoflush=False`: rows pending from the same run are not seen). -/
def roundBillStep (cfg : Settings) (tenantId : ℕ) (visible : List Anomaly)
    (acc : DB × ℕ) (b : Bill) : DB × ℕ :=
  if b.has_line_items then acc
  else if b.total_amount < cfg.alert_min_amount then acc
  else if isMultipleOf500 b.total_amount then
    if hasAnomalyIn visible tenantId b.id "round_number" then acc
    else
      ({ acc.1 with
          anomalies := acc.1.anomalies ++ [mkRoundNumberAnomaly cfg tenantId b] },
       acc.2 + 1)
  else acc

/-- Model of `_detect_round_numbers(tenant_id, db)` (engine.py lines 124-160). -/
def detect_round_numbers (cfg : Settings) (tenantId : ℕ) (db : DB) : DB × ℕ :=
  (db.bills.filter fun b => b.tenant_id == tenantId).foldl
    (roundBillStep cfg tenantId db.anomalies) (db, 0)

/-! ### DetectionOrchestrator (`run_detection`, engine.py lines 11-18) -/

/-- Model of `run_detection(tenant_id, db)` (engine.py lines 11-18): recompute
baselines, then run the three detectors in order, returning the count of new
anomalies (the baseline count is discarded). -/
def run_detection (cfg : Settings) (today : ℤ) (tenantId : ℕ) (db : DB) :
    DB × ℕ :=
  let r0 := compute_baselines cfg today tenantId db
  let r1 := detect_duplicates cfg tenantId r0.1
  let r2 := detect_price_outliers cfg tenantId r1.1
  let r3 := detect_round_numbers cfg tenantId r2.1
  (r3.1, r1.2 + r2.2 + r3.2)

/-- The state the storage has committed if the run fails at any point after
`compute_baselines` returns: baselines.py line 76 executes `db.commit()`
inside `compute_baselines`, while the anomalies added by the detectors are
committed only by the caller after `run_detection` returns
(`src/app/api/routes.py` line 183). -/
def observable_after_midrun_failure (cfg : Settings) (today : ℤ) (tenantId : ℕ)
    (db : DB) : DB :=
  (compute_baselines cfg today tenantId db).1

/-! ### Generic list lemmas -/

theorem find?_append_of_none {p : α → Bool} {l l' : List α}
    (h : l.find? p = none) : (l ++ l').find? p = l'.find? p := by
  induction l with
  | nil => rfl
  | cons x xs ih =>
      rw [List.find?_cons] at h
      cases hx : p x with
      | true => simp [hx] at h
      | false =>
          simp only [hx] at h
          simpa [List.find?_cons, hx] using ih h

theorem find?_append_of_some {p : α → Bool} {l l' : List α} {a : α}
    (h : l.find? p = some a) : (l ++ l').find? p = some a := by
  induction l with
  | nil => simp at h
  | cons x xs ih =>
      rw [List.find?_cons] at h
      cases hx : p x with
      | true =>
          simp only [hx] at h
          simpa [List.find?_cons, hx] using h
      | false =>
          simp only [hx] at h
          simpa [List.find?_cons, hx] using ih h

theorem find?_replaceFirst_self {p : α → Bool} {f : α → α} {l : List α} {a : α}
    (h : l.find? p = some a) (hfa : p (f a) = true) :
    (replaceFirst p f l).find? p = some (f a) := by
  induction l with
  | nil => simp at h
  | cons x xs ih =>
      rw [List.find?_cons] at h
      cases hx : p x with
      | true =>
          simp only [hx] at h
          cases h
          simp [replaceFirst, hx, List.find?_cons, hfa]
      | false =>
          simp only [hx] at h
          simp [replaceFirst, hx, List.find?_cons, ih h]

theorem find?_replaceFirst_other {p q : α → Bool} {f : α → α} {l : List α}
    (h : ∀ x, p x = true → q x = false ∧ q (f x) = false) :
    (replaceFirst p f l).find? q = l.find? q := by
  induction l with
  | nil => rfl
  | cons x xs ih =>
      cases hx : p x with
      | true =>
          obtain ⟨h1, h2⟩ := h x hx
          simp [replaceFirst, hx, List.find?_cons, h1, h2]
      | false =>
          cases hq : q x with
          | true => simp [replaceFirst, hx, List.find?_cons, hq]
          | false => simp [replaceFirst, hx, List.find?_cons, hq, ih]

theorem replaceFirst_eq_self {p : α → Bool} {f : α → α} {l : List α} {a : α}
    (h : l.find? p = some a) (hfa : f a = a) : replaceFirst p f l = l := by
  induction l with
  | nil => rfl
  | cons x xs ih =>
      rw [List.find?_cons] at h
      cases hx : p x with
      | true =>
          simp only [hx] at h
          cases h
          simp [replaceFirst, hx, hfa]
      | false =>
          simp only [hx] at h
          simp [replaceFirst, hx, ih h]

theorem length_filter_replaceFirst {p q : α → Bool} {f : α → α} {l : List α}
    (h : ∀ x, p x = true → q (f x) = q x) :
    ((replaceFirst p f l).filter q).length = (l.filter q).length := by
  induction l with
  | nil => rfl
  | cons x xs ih =>
      cases hx : p x with
      | true =>
          rw [show replaceFirst p f (x :: xs) = f x :: xs by simp [replaceFirst, hx]]
          rw [List.filter_cons, List.filter_cons, h x hx]
          cases q x <;> simp
      | false =>
          rw [show replaceFirst p f (x :: xs) = x :: replaceFirst p f xs by
                simp [replaceFirst, hx]]
          rw [List.filter_cons, List.filter_cons]
          cases q x <;> simp [ih]

theorem foldl_congr_const {f : β → α → β} {l : List α} {b : β}
    (h : ∀ acc x, x ∈ l → f acc x = acc) : l.foldl f b = b := by
  induction l generalizing b with
  | nil => rfl
  | cons x xs ih =>
      rw [List.foldl_cons, h b x (by simp)]
      exact ih fun acc y hy => h acc y (by simp [hy])

theorem any_eq_false_of_find?_eq_none {p : α → Bool} {l : List α}
    (h : l.find? p = none) : l.any p = false := by
  rw [List.find?_eq_none] at h
  simp only [List.any_eq_false]
  intro x hx
  simp [h x hx]

theorem find?_isSome_of_any {p : α → Bool} {l : List α}
    (h : l.any p = true) : ∃ a, l.find? p = some a := by
  cases hf : l.find? p with
  | some a => exact ⟨a, rfl⟩
  | none => rw [any_eq_false_of_find?_eq_none hf] at h; cases h

theorem pairwise_of_all {R : α → α → Prop} (h : ∀ x y, R x y) :
    ∀ l : List α, l.Pairwise R := by
  intro l
  induction l with
  | nil => exact List.Pairwise.nil
  | cons x xs ih => exact List.Pairwise.cons (fun y _ => h x y) ih

/-! ### State-evolution predicate

`StepOn Q db db'` says a detection step turned `db` into `db'` by appending
anomalies all satisfying `Q`, leaving bills, vendors and baselines unchanged. -/

def StepOn (Q : Anomaly → Prop) (db db' : DB) : Prop :=
  db'.bills = db.bills ∧ db'.vendors = db.vendors ∧ db'.baselines = db.baselines ∧
    ∃ l, db'.anomalies = db.anomalies ++ l ∧ ∀ a ∈ l, Q a

theorem stepOn_refl {Q : Anomaly → Prop} {db : DB} : StepOn Q db db :=
  ⟨Eq.refl _, Eq.refl _, Eq.refl _, [], by simp⟩

theorem stepOn_trans {Q : Anomaly → Prop} {db1 db2 db3 : DB}
    (h1 : StepOn Q db1 db2) (h2 : StepOn Q db2 db3) : StepOn Q db1 db3 := by
  obtain ⟨hb1, hv1, hl1, l1, ha1, hq1⟩ := h1
  obtain ⟨hb2, hv2, hl2, l2, ha2, hq2⟩ := h2
  refine ⟨hb2.trans hb1, hv2.trans hv1, hl2.trans hl1, l1 ++ l2, ?_, ?_⟩
  · rw [ha2, ha1, List.append_assoc]
  · intro a ha
    rcases List.mem_append.1 ha with h | h
    · exact hq1 a h
    · exact hq2 a h

theorem stepOn_add {Q : Anomaly → Prop} {db : DB} {a : Anomaly} (hq : Q a) :
    StepOn Q db { db with anomalies := db.anomalies ++ [a] } :=
  ⟨Eq.refl _, Eq.refl _, Eq.refl _, [a], Eq.refl _, by simpa⟩

theorem stepOn_mono {Q Q' : Anomaly → Prop} {db db' : DB}
    (h : StepOn Q db db') (hq : ∀ a, Q a → Q' a) : StepOn Q' db db' := by
  obtain ⟨hb, hv, hl, l, ha, hqa⟩ := h
  exact ⟨hb, hv, hl, l, ha, fun a hm => hq a (hqa a hm)⟩

/-- Anomaly-existence checks are preserved when anomalies are only appended. -/
theorem hasAnomaly_mono {Q : Anomaly → Prop} {db db' : DB} {t b : ℕ} {k : String}
    (h : StepOn Q db db') (hh : hasAnomaly db t b k = true) :
    hasAnomaly db' t b k = true := by
  obtain ⟨-, -, -, l, ha, -⟩ := h
  unfold hasAnomaly hasAnomalyIn at hh ⊢
  rw [ha, List.any_append, hh, Bool.true_or]

/-- The appended anomaly itself satisfies its own existence check. -/
theorem hasAnomaly_append {db : DB} {a : Anomaly} {t b : ℕ} {k : String}
    (ht : a.tenant_id = t) (hb : a.bill_id = some b) (hk : a.anomaly_type = k) :
    hasAnomaly { db with anomalies := db.anomalies ++ [a] } t b k = true := by
  unfold hasAnomaly hasAnomalyIn
  rw [List.any_append]
  simp [ht, hb, hk]

/-- Existence in a snapshot persists under appended rows. -/
theorem hasAnomalyIn_append_left {l l' : List Anomaly} {t b : ℕ} {k : String}
    (h : hasAnomalyIn l t b k = true) : hasAnomalyIn (l ++ l') t b k = true := by
  unfold hasAnomalyIn at h ⊢
  rw [List.any_append, h, Bool.true_or]

/-- A member row with the right triple satisfies the existence check. -/
theorem hasAnomalyIn_of_mem {l : List Anomaly} {a : Anomaly} {t b : ℕ}
    {k : String} (hm : a ∈ l) (ht : a.tenant_id = t) (hb : a.bill_id = some b)
    (hk : a.anomaly_type = k) : hasAnomalyIn l t b k = true := by
  unfold hasAnomalyIn
  exact List.any_eq_true.2 ⟨a, hm, by simp [ht, hb, hk]⟩

/-- The snapshot a detector reads is never ahead of its accumulated state:
every triple present in the snapshot is present in the state. Established at
detector entry, preserved while anomalies are only appended. -/
def VisLe (visible : List Anomaly) (db : DB) : Prop :=
  ∀ t b k, hasAnomalyIn visible t b k = true → hasAnomaly db t b k = true

theorem visLe_self {db : DB} : VisLe db.anomalies db := fun _ _ _ h => h

theorem visLe_mono {Q : Anomaly → Prop} {visible : List Anomaly} {db db' : DB}
    (hs : StepOn Q db db') (h : VisLe visible db) : VisLe visible db' :=
  fun t b k hh => hasAnomaly_mono hs (h t b k hh)

/-! ### DuplicateDetector lemmas -/

/-- The qualifying condition on a pair: dates within the window. -/
def dupQual (cfg : Settings) (x y : Bill) : Prop :=
  |x.txn_date - y.txn_date| ≤ cfg.duplicate_day_window

/-- Every qualifying in-order pair of `l` has a `duplicate` anomaly on its
first member, in a state. -/
def dupCovered (cfg : Settings) (tenantId : ℕ) (db : DB) (l : List Bill) : Prop :=
  l.Pairwise fun x y => dupQual cfg x y →
    hasAnomaly db tenantId x.id "duplicate" = true

/-- Every qualifying in-order pair of `l` has a `duplicate` anomaly on its
first member, in a snapshot. -/
def dupCoveredIn (cfg : Settings) (tenantId : ℕ) (visible : List Anomaly)
    (l : List Bill) : Prop :=
  l.Pairwise fun x y => dupQual cfg x y →
    hasAnomalyIn visible tenantId x.id "duplicate" = true

theorem dupCovered_mono {Q : Anomaly → Prop} {cfg : Settings} {tenantId : ℕ}
    {db db' : DB} {l : List Bill} (h : StepOn Q db db')
    (hc : dupCovered cfg tenantId db l) : dupCovered cfg tenantId db' l :=
  hc.imp fun hxy hq => hasAnomaly_mono h (hxy hq)

theorem dupPairStep_stepOn {Q : Anomaly → Prop} {cfg : Settings} {tenantId : ℕ}
    {visible : List Anomaly} {b b2 : Bill} {acc : DB × ℕ}
    (hq : Q (mkDuplicateAnomaly cfg tenantId b b2)) :
    StepOn Q acc.1 (dupPairStep cfg tenantId visible b b2 acc).1 := by
  unfold dupPairStep
  split
  · split
    · exact stepOn_refl
    · exact stepOn_add hq
  · exact stepOn_refl

theorem dupInner_stepOn {Q : Anomaly → Prop} {cfg : Settings} {tenantId : ℕ}
    {visible : List Anomaly} {b : Bill} {js : List Bill}
    (hq : ∀ y ∈ js, Q (mkDuplicateAnomaly cfg tenantId b y)) :
    ∀ acc : DB × ℕ, StepOn Q acc.1 (dupInner cfg tenantId visible b js acc).1 := by
  induction js with
  | nil => intro acc; exact stepOn_refl
  | cons y ys ih =>
      intro acc
      rw [dupInner, List.foldl_cons]
      exact stepOn_trans (dupPairStep_stepOn (hq y (by simp)))
        (ih (fun y hy => hq y (by simp [hy])) _)

theorem dupPairStep_flags {cfg : Settings} {tenantId : ℕ}
    {visible : List Anomaly} {b b2 : Bill} {acc : DB × ℕ} (hq : dupQual cfg b b2)
    (hv : VisLe visible acc.1) :
    hasAnomaly (dupPairStep cfg tenantId visible b b2 acc).1
      tenantId b.id "duplicate" = true := by
  have hq' : |b.txn_date - b2.txn_date| ≤ cfg.duplicate_day_window := hq
  unfold dupPairStep
  rw [if_pos hq']
  split
  · rename_i hvis
    exact hv _ _ _ hvis
  · exact hasAnomaly_append rfl rfl rfl

theorem dupInner_flags {cfg : Settings} {tenantId : ℕ} {visible : List Anomaly}
    {b : Bill} {js : List Bill} {y : Bill} (hy : y ∈ js) (hq : dupQual cfg b y) :
    ∀ acc : DB × ℕ, VisLe visible acc.1 →
      hasAnomaly (dupInner cfg tenantId visible b js acc).1
        tenantId b.id "duplicate" = true := by
  induction js with
  | nil => cases hy
  | cons z zs ih =>
      intro acc hv
      rw [dupInner, List.foldl_cons]
      rcases List.mem_cons.1 hy with h | h
      · subst h
        exact hasAnomaly_mono
          (dupInner_stepOn (Q := fun _ => True) (by simp) _)
          (dupPairStep_flags hq hv)
      · exact ih h _ (visLe_mono (dupPairStep_stepOn (Q := fun _ => True) trivial) hv)

theorem dupInner_skip {cfg : Settings} {tenantId : ℕ} {visible : List Anomaly}
    {b : Bill} {js : List Bill} {acc : DB × ℕ}
    (h : ∀ y ∈ js, dupQual cfg b y →
      hasAnomalyIn visible tenantId b.id "duplicate" = true) :
    dupInner cfg tenantId visible b js acc = acc := by
  induction js with
  | nil => rfl
  | cons y ys ih =>
      rw [dupInner, List.foldl_cons]
      have hstep : dupPairStep cfg tenantId visible b y acc = acc := by
        unfold dupPairStep
        split
        · rename_i hd
          rw [if_pos (h y (by simp) hd)]
        · rfl
      rw [hstep]
      exact ih fun y hy hq => h y (by simp [hy]) hq

theorem dupOuter_stepOn {Q : Anomaly → Prop} {cfg : Settings} {tenantId : ℕ}
    {visible : List Anomaly} :
    ∀ {l : List Bill},
      l.Pairwise (fun x y => Q (mkDuplicateAnomaly cfg tenantId x y)) →
      ∀ acc : DB × ℕ, StepOn Q acc.1 (dupOuter cfg tenantId visible l acc).1 := by
  intro l
  induction l with
  | nil => intro _ acc; exact stepOn_refl
  | cons b rest ih =>
      intro hp acc
      rw [List.pairwise_cons] at hp
      rw [dupOuter]
      exact stepOn_trans (dupInner_stepOn hp.1 acc) (ih hp.2 _)

theorem dupOuter_covers {cfg : Settings} {tenantId : ℕ} {visible : List Anomaly} :
    ∀ {l : List Bill} (acc : DB × ℕ), VisLe visible acc.1 →
      dupCovered cfg tenantId (dupOuter cfg tenantId visible l acc).1 l := by
  intro l
  induction l with
  | nil => intro acc _; exact List.Pairwise.nil
  | cons b rest ih =>
      intro acc hv
      rw [dupOuter, dupCovered, List.pairwise_cons]
      constructor
      · intro y hy hq
        exact hasAnomaly_mono (dupOuter_stepOn (Q := fun _ => True)
            (pairwise_of_all (fun _ _ => trivial) _) _)
          (dupInner_flags hy hq acc hv)
      · exact ih _ (visLe_mono (dupInner_stepOn (Q := fun _ => True) (by simp) acc) hv)

theorem dupOuter_skip {cfg : Settings} {tenantId : ℕ} {visible : List Anomaly} :
    ∀ {l : List Bill} {acc : DB × ℕ},
      dupCoveredIn cfg tenantId visible l →
      dupOuter cfg tenantId visible l acc = acc := by
  intro l
  induction l with
  | nil => intro acc _; rfl
  | cons b rest ih =>
      intro acc hc
      rw [dupCoveredIn, List.pairwise_cons] at hc
      rw [dupOuter, dupInner_skip fun y hy hq => hc.1 y hy hq]
      exact ih hc.2

theorem dupGroupStep_stepOn {Q : Anomaly → Prop} {cfg : Settings} {tenantId : ℕ}
    {visible : List Anomaly} {g : (ℕ × ℚ) × List Bill} {acc : DB × ℕ}
    (hp : g.2.Pairwise fun x y => Q (mkDuplicateAnomaly cfg tenantId x y)) :
    StepOn Q acc.1 (dupGroupStep cfg tenantId visible acc g).1 := by
  unfold dupGroupStep
  split
  · exact stepOn_refl
  · exact dupOuter_stepOn hp acc

theorem dupGroupStep_covers {cfg : Settings} {tenantId : ℕ}
    {visible : List Anomaly} {g : (ℕ × ℚ) × List Bill} {acc : DB × ℕ}
    (hv : VisLe visible acc.1) :
    dupCovered cfg tenantId (dupGroupStep cfg tenantId visible acc g).1 g.2 := by
  unfold dupGroupStep
  split
  · rename_i hlen
    match h2 : g.2, hlen with
    | [], _ => exact List.Pairwise.nil
    | [x], _ => exact List.pairwise_singleton _ _
    | x :: y :: t, hlen => simp only [List.length_cons] at hlen; omega
  · exact dupOuter_covers acc hv

theorem dupGroupStep_skip {cfg : Settings} {tenantId : ℕ}
    {visible : List Anomaly} {g : (ℕ × ℚ) × List Bill} {acc : DB × ℕ}
    (hc : dupCoveredIn cfg tenantId visible g.2) :
    dupGroupStep cfg tenantId visible acc g = acc := by
  unfold dupGroupStep
  split
  · rfl
  · exact dupOuter_skip hc

theorem dupGroups_stepOn {Q : Anomaly → Prop} {cfg : Settings} {tenantId : ℕ}
    {visible : List Anomaly} :
    ∀ {gs : List ((ℕ × ℚ) × List Bill)},
      (∀ g ∈ gs, g.2.Pairwise fun x y => Q (mkDuplicateAnomaly cfg tenantId x y)) →
      ∀ acc : DB × ℕ,
        StepOn Q acc.1 ((gs.foldl (dupGroupStep cfg tenantId visible) acc)).1 := by
  intro gs
  induction gs with
  | nil => intro _ acc; exact stepOn_refl
  | cons g rest ih =>
      intro hp acc
      rw [List.foldl_cons]
      exact stepOn_trans (dupGroupStep_stepOn (hp g (by simp)))
        (ih (fun g hg => hp g (by simp [hg])) _)

theorem dupGroups_covers {cfg : Settings} {tenantId : ℕ} {visible : List Anomaly} :
    ∀ {gs : List ((ℕ × ℚ) × List Bill)} (acc : DB × ℕ), VisLe visible acc.1 →
      ∀ g ∈ gs, dupCovered cfg tenantId
        ((gs.foldl (dupGroupStep cfg tenantId visible) acc)).1 g.2 := by
  intro gs
  induction gs with
  | nil => intro acc _ g hg; cases hg
  | cons g0 rest ih =>
      intro acc hv g hg
      rw [List.foldl_cons]
      rcases List.mem_cons.1 hg with h | h
      · subst h
        exact dupCovered_mono (dupGroups_stepOn (Q := fun _ => True)
            (fun g _ => pairwise_of_all (fun _ _ => trivial) _) _)
          (dupGroupStep_covers hv)
      · exact ih _ (visLe_mono (dupGroupStep_stepOn (Q := fun _ => True)
            (pairwise_of_all (fun _ _ => trivial) _)) hv) g h

theorem dupGroups_skip {cfg : Settings} {tenantId : ℕ} {visible : List Anomaly} :
    ∀ {gs : List ((ℕ × ℚ) × List Bill)} {acc : DB × ℕ},
      (∀ g ∈ gs, dupCoveredIn cfg tenantId visible g.2) →
      gs.foldl (dupGroupStep cfg tenantId visible) acc = acc := by
  intro gs
  induction gs with
  | nil => intro _ _; rfl
  | cons g0 rest ih =>
      intro acc hc
      rw [List.foldl_cons, dupGroupStep_skip (hc g0 (by simp))]
      exact ih fun g hg => hc g (by simp [hg])

/-- Coverage established by one duplicate pass: every qualifying pair of
every group carries a `duplicate` anomaly on its first member afterwards —
either the entry snapshot already held the row (and rows are only appended)
or the pass inserted it. -/
theorem detect_duplicates_covers {cfg : Settings} {tenantId : ℕ} {db : DB} :
    ∀ g ∈ groupBills (tenantBillsSorted tenantId db),
      dupCovered cfg tenantId (detect_duplicates cfg tenantId db).1 g.2 :=
  fun g hg => dupGroups_covers (db, 0) visLe_self g hg

/-- A duplicate pass whose entry snapshot already covers every qualifying
pair changes nothing. -/
theorem detect_duplicates_skip {cfg : Settings} {tenantId : ℕ} {db : DB}
    (hc : ∀ g ∈ groupBills (tenantBillsSorted tenantId db),
      dupCovered cfg tenantId db g.2) :
    detect_duplicates cfg tenantId db = (db, 0) :=
  dupGroups_skip fun g hg => hc g hg

/-! ### PriceOutlierDetector lemmas -/

/-- Every bill a baseline-vendor pair flags has a `price_creep` anomaly. -/
def outCovered (cfg : Settings) (tenantId : ℕ) (bills : List Bill) (db : DB)
    (p : VendorBaseline × Vendor) : Prop :=
  ∀ std, p.1.std_amount = some std → ¬ std ≤ 0 →
    ∀ b ∈ flaggedBills bills p.2.id (p.1.avg_amount + cfg.alert_sigma_threshold * std),
      hasAnomaly db tenantId b.id "price_creep" = true

theorem outCovered_mono {Q : Anomaly → Prop} {cfg : Settings} {tenantId : ℕ}
    {bills : List Bill} {db db' : DB} {p : VendorBaseline × Vendor}
    (h : StepOn Q db db') (hc : outCovered cfg tenantId bills db p) :
    outCovered cfg tenantId bills db' p :=
  fun std hstd hpos b hb => hasAnomaly_mono h (hc std hstd hpos b hb)

/-- The bill loop of one baseline appends, in order, exactly one row per
flagged bill absent from the snapshot. -/
theorem outlierBills_foldl_eq {cfg : Settings} {tenantId : ℕ}
    {visible : List Anomaly} {avg std : ℚ} :
    ∀ (bs : List Bill) (acc : DB × ℕ),
      bs.foldl (outlierBillStep cfg tenantId visible avg std) acc =
        ({ acc.1 with anomalies := acc.1.anomalies ++
            ((bs.filter fun b =>
                !hasAnomalyIn visible tenantId b.id "price_creep").map fun b =>
              mkPriceCreepAnomaly cfg tenantId b
                ((b.total_amount - avg) / std) avg std) },
         acc.2 + ((bs.filter fun b =>
            !hasAnomalyIn visible tenantId b.id "price_creep").length)) := by
  intro bs
  induction bs with
  | nil =>
      intro acc
      simp
  | cons b rest ih =>
      intro acc
      rw [List.foldl_cons, List.filter_cons]
      cases hvis : hasAnomalyIn visible tenantId b.id "price_creep" with
      | true =>
          have hstep : outlierBillStep cfg tenantId visible avg std acc b = acc := by
            simp only [outlierBillStep]
            rw [if_pos hvis]
          rw [hstep, ih]
          simp [hvis]
      | false =>
          have hstep : outlierBillStep cfg tenantId visible avg std acc b =
              ({ acc.1 with anomalies := acc.1.anomalies ++
                  [mkPriceCreepAnomaly cfg tenantId b
                    ((b.total_amount - avg) / std) avg std] }, acc.2 + 1) := by
            simp only [outlierBillStep]
            rw [if_neg (by simp [hvis])]
          rw [hstep, ih]
          simp [hvis, List.append_assoc] <;> omega

/-- One baseline step appends exactly the rows of the spec description for
its pair. -/
theorem outlierBaselineStep_eq {cfg : Settings} {tenantId : ℕ}
    {bills : List Bill} {visible : List Anomaly} (acc : DB × ℕ)
    (p : VendorBaseline × Vendor) :
    outlierBaselineStep cfg tenantId bills visible acc p =
      ({ acc.1 with anomalies := acc.1.anomalies ++
          specPriceCreepRowsFor cfg tenantId bills visible p },
       acc.2 + (specPriceCreepRowsFor cfg tenantId bills visible p).length) := by
  unfold outlierBaselineStep specPriceCreepRowsFor
  split
  · simp
  · rename_i std hstd
    split
    · simp
    · rw [outlierBills_foldl_eq]
      simp only [List.length_map]
      rfl

theorem outlierFold_eq {cfg : Settings} {tenantId : ℕ} {bills : List Bill}
    {visible : List Anomaly} :
    ∀ (ps : List (VendorBaseline × Vendor)) (acc : DB × ℕ),
      ps.foldl (outlierBaselineStep cfg tenantId bills visible) acc =
        ({ acc.1 with
            anomalies := acc.1.anomalies ++
              ps.bind (specPriceCreepRowsFor cfg tenantId bills visible) },
         acc.2 + (ps.bind (specPriceCreepRowsFor cfg tenantId bills visible)).length) := by
  intro ps
  induction ps with
  | nil =>
      intro acc
      simp
  | cons p rest ih =>
      intro acc
      rw [List.foldl_cons, outlierBaselineStep_eq, ih]
      simp [List.append_assoc] <;> omega

/-- One price-outlier pass appends exactly the rows of the spec description
and returns their count. -/
theorem detect_price_outliers_eq (cfg : Settings) (tenantId : ℕ) (db : DB) :
    detect_price_outliers cfg tenantId db =
      ({ db with anomalies := db.anomalies ++ specPriceCreepRows cfg tenantId db },
       (specPriceCreepRows cfg tenantId db).length) := by
  unfold detect_price_outliers specPriceCreepRows
  rw [outlierFold_eq]
  simp

/-- Every spec row is one application of the price-creep constructor. -/
theorem specPriceCreepRowsFor_mem {cfg : Settings} {tenantId : ℕ}
    {bills : List Bill} {visible : List Anomaly} {p : VendorBaseline × Vendor}
    {a : Anomaly} (h : a ∈ specPriceCreepRowsFor cfg tenantId bills visible p) :
    ∃ b z avg std, a = mkPriceCreepAnomaly cfg tenantId b z avg std := by
  unfold specPriceCreepRowsFor at h
  split at h
  · cases h
  · rename_i std hstd
    split at h
    · cases h
    · obtain ⟨b, hbmem, hba⟩ := List.mem_map.1 h
      exact ⟨b, (b.total_amount - p.1.avg_amount) / std, p.1.avg_amount, std,
        hba.symm⟩

/-- A flagged bill absent from the snapshot contributes its row to the spec
description. -/
theorem specPriceCreepRowsFor_mem_of {cfg : Settings} {tenantId : ℕ}
    {bills : List Bill} {visible : List Anomaly} {p : VendorBaseline × Vendor}
    {std : ℚ} {b : Bill} (hstd : p.1.std_amount = some std) (hpos : ¬ std ≤ 0)
    (hb : b ∈ flaggedBills bills p.2.id
      (p.1.avg_amount + cfg.alert_sigma_threshold * std))
    (hvis : hasAnomalyIn visible tenantId b.id "price_creep" = false) :
    mkPriceCreepAnomaly cfg tenantId b ((b.total_amount - p.1.avg_amount) / std)
        p.1.avg_amount std ∈ specPriceCreepRowsFor cfg tenantId bills visible p := by
  unfold specPriceCreepRowsFor
  split
  · rename_i heq
    rw [hstd] at heq
    cases heq
  · rename_i std' hstd'
    rw [hstd] at hstd'
    injection hstd' with he
    subst he
    rw [if_neg hpos]
    exact List.mem_map.2 ⟨b, List.mem_filter.2 ⟨hb, by simp [hvis]⟩, rfl⟩

/-- A pair whose flagged bills are all covered in the snapshot contributes
nothing. -/
theorem specPriceCreepRowsFor_eq_nil {cfg : Settings} {tenantId : ℕ}
    {bills : List Bill} {visible : List Anomaly} {p : VendorBaseline × Vendor}
    (h : ∀ std, p.1.std_amount = some std → ¬ std ≤ 0 →
      ∀ b ∈ flaggedBills bills p.2.id
          (p.1.avg_amount + cfg.alert_sigma_threshold * std),
        hasAnomalyIn visible tenantId b.id "price_creep" = true) :
    specPriceCreepRowsFor cfg tenantId bills visible p = [] := by
  unfold specPriceCreepRowsFor
  split
  · rfl
  · rename_i std hstd
    split
    · rfl
    · rename_i hs
      rw [List.map_eq_nil, List.filter_eq_nil_iff]
      intro b hb
      simp [h std hstd hs b hb]

/-- Coverage established by one price-outlier pass: every bill a stored
baseline flags carries a `price_creep` anomaly afterwards — either the entry
snapshot already held the row (and rows are only appended) or the pass
inserted it. -/
theorem detect_price_outliers_covers {cfg : Settings} {tenantId : ℕ} {db : DB} :
    ∀ p ∈ joinBaselines db tenantId,
      outCovered cfg tenantId db.bills (detect_price_outliers cfg tenantId db).1 p := by
  intro p hp std hstd hpos b hb
  rw [detect_price_outliers_eq]
  show hasAnomalyIn (db.anomalies ++ specPriceCreepRows cfg tenantId db)
    tenantId b.id "price_creep" = true
  cases hvis : hasAnomalyIn db.anomalies tenantId b.id "price_creep" with
  | true => exact hasAnomalyIn_append_left hvis
  | false =>
      have hmem : mkPriceCreepAnomaly cfg tenantId b
          ((b.total_amount - p.1.avg_amount) / std) p.1.avg_amount std ∈
            specPriceCreepRows cfg tenantId db := by
        unfold specPriceCreepRows
        exact List.mem_bind.2 ⟨p, hp, specPriceCreepRowsFor_mem_of hstd hpos hb hvis⟩
      exact hasAnomalyIn_of_mem (List.mem_append_right _ hmem) rfl rfl rfl

/-- A price-outlier pass whose entry snapshot already covers every flagged
bill changes nothing. -/
theorem detect_price_outliers_skip {cfg : Settings} {tenantId : ℕ} {db : DB}
    (hc : ∀ p ∈ joinBaselines db tenantId, outCovered cfg tenantId db.bills db p) :
    detect_price_outliers cfg tenantId db = (db, 0) := by
  have hnil : specPriceCreepRows cfg tenantId db = [] := by
    unfold specPriceCreepRows
    rw [List.bind_eq_nil]
    intro p hp
    exact specPriceCreepRowsFor_eq_nil fun std hstd hpos b hb =>
      hc p hp std hstd hpos b hb
  rw [detect_price_outliers_eq, hnil]
  simp

/-! ### RoundNumberDetector lemmas -/

/-- The firing condition of the round-number detector for one bill, before
the existence check. -/
def roundElig (cfg : Settings) (b : Bill) : Prop :=
  b.has_line_items = false ∧ ¬ b.total_amount < cfg.alert_min_amount ∧
    isMultipleOf500 b.total_amount = true

/-- Every eligible bill has a `round_number` anomaly, in a state. -/
def roundCovered (cfg : Settings) (tenantId : ℕ) (db : DB) (b : Bill) : Prop :=
  roundElig cfg b → hasAnomaly db tenantId b.id "round_number" = true

/-- Every eligible bill has a `round_number` anomaly, in a snapshot. -/
def roundCoveredIn (cfg : Settings) (tenantId : ℕ) (visible : List Anomaly)
    (b : Bill) : Prop :=
  roundElig cfg b → hasAnomalyIn visible tenantId b.id "round_number" = true

theorem roundCovered_mono {Q : Anomaly → Prop} {cfg : Settings} {tenantId : ℕ}
    {db db' : DB} {b : Bill} (h : StepOn Q db db')
    (hc : roundCovered cfg tenantId db b) : roundCovered cfg tenantId db' b :=
  fun he => hasAnomaly_mono h (hc he)

theorem roundBillStep_stepOn {Q : Anomaly → Prop} {cfg : Settings} {tenantId : ℕ}
    {visible : List Anomaly} {acc : DB × ℕ} {b : Bill}
    (hq : Q (mkRoundNumberAnomaly cfg tenantId b)) :
    StepOn Q acc.1 (roundBillStep cfg tenantId visible acc b).1 := by
  unfold roundBillStep
  split
  · exact stepOn_refl
  · split
    · exact stepOn_refl
    · split
      · split
        · exact stepOn_refl
        · exact stepOn_add hq
      · exact stepOn_refl

theorem roundBillStep_covers {cfg : Settings} {tenantId : ℕ}
    {visible : List Anomaly} {acc : DB × ℕ} {b : Bill}
    (hv : VisLe visible acc.1) :
    roundCovered cfg tenantId (roundBillStep cfg tenantId visible acc b).1 b := by
  intro he
  obtain ⟨h1, h2, h3⟩ := he
  unfold roundBillStep
  rw [h1]
  simp only [Bool.false_eq_true, if_false]
  rw [if_neg h2, if_pos h3]
  split
  · rename_i hvis
    exact hv _ _ _ hvis
  · exact hasAnomaly_append rfl rfl rfl

theorem roundBillStep_skip {cfg : Settings} {tenantId : ℕ}
    {visible : List Anomaly} {acc : DB × ℕ} {b : Bill}
    (hc : roundCoveredIn cfg tenantId visible b) :
    roundBillStep cfg tenantId visible acc b = acc := by
  unfold roundBillStep
  split
  · rfl
  · split
    · rfl
    · split
      · rename_i h1 h2 h3
        rw [if_pos (hc ⟨by simpa using h1, h2, h3⟩)]
      · rfl

theorem roundFold_stepOn {Q : Anomaly → Prop} {cfg : Settings} {tenantId : ℕ}
    {visible : List Anomaly} (hq : ∀ b, Q (mkRoundNumberAnomaly cfg tenantId b)) :
    ∀ (bs : List Bill) (acc : DB × ℕ),
      StepOn Q acc.1 ((bs.foldl (roundBillStep cfg tenantId visible) acc)).1 := by
  intro bs
  induction bs with
  | nil => intro acc; exact stepOn_refl
  | cons b rest ih =>
      intro acc
      rw [List.foldl_cons]
      exact stepOn_trans (roundBillStep_stepOn (hq b)) (ih _)

theorem roundFold_covers {cfg : Settings} {tenantId : ℕ} {visible : List Anomaly} :
    ∀ {bs : List Bill} (acc : DB × ℕ), VisLe visible acc.1 → ∀ b ∈ bs,
      roundCovered cfg tenantId
        ((bs.foldl (roundBillStep cfg tenantId visible) acc)).1 b := by
  intro bs
  induction bs with
  | nil => intro acc _ b hb; cases hb
  | cons b0 rest ih =>
      intro acc hv b hb
      rw [List.foldl_cons]
      rcases List.mem_cons.1 hb with h | h
      · subst h
        exact roundCovered_mono
          (roundFold_stepOn (Q := fun _ => True) (by simp) _ _)
          (roundBillStep_covers hv)
      · exact ih _ (visLe_mono (roundBillStep_stepOn (Q := fun _ => True)
            trivial) hv) b h

theorem roundFold_skip {cfg : Settings} {tenantId : ℕ} {visible : List Anomaly} :
    ∀ {bs : List Bill} {acc : DB × ℕ},
      (∀ b ∈ bs, roundCoveredIn cfg tenantId visible b) →
      bs.foldl (roundBillStep cfg tenantId visible) acc = acc := by
  intro bs
  induction bs with
  | nil => intro _ _; rfl
  | cons b0 rest ih =>
      intro acc hc
      rw [List.foldl_cons, roundBillStep_skip (hc b0 (by simp))]
      exact ih fun b hb => hc b (by simp [hb])

/-- Coverage established by one round-number pass: every eligible bill of
the tenant carries a `round_number` anomaly afterwards — either the entry
snapshot already held the row or the pass inserted it. -/
theorem detect_round_numbers_covers {cfg : Settings} {tenantId : ℕ} {db : DB} :
    ∀ b ∈ db.bills.filter (fun b => b.tenant_id == tenantId),
      roundCovered cfg tenantId (detect_round_numbers cfg tenantId db).1 b :=
  fun b hb => roundFold_covers (db, 0) visLe_self b hb

/-- A round-number pass whose entry snapshot already covers every eligible
bill changes nothing. -/
theorem detect_round_numbers_skip {cfg : Settings} {tenantId : ℕ} {db : DB}
    (hc : ∀ b ∈ db.bills.filter (fun b => b.tenant_id == tenantId),
      roundCovered cfg tenantId db b) :
    detect_round_numbers cfg tenantId db = (db, 0) :=
  roundFold_skip fun b hb => hc b hb

/-! ### BaselineCalculator lemmas -/

theorem find?_eq_none_of_any_eq_false {p : α → Bool} {l : List α}
    (h : l.any p = false) : l.find? p = none := by
  cases hf : l.find? p with
  | none => rfl
  | some a =>
      have : l.any p = true :=
        List.any_eq_true.2 ⟨a, List.mem_of_find?_eq_some hf, List.find?_some hf⟩
      rw [h] at this
      cases this

theorem any_eq_true_of_find?_eq_some {p : α → Bool} {l : List α} {a : α}
    (h : l.find? p = some a) : l.any p = true :=
  List.any_eq_true.2 ⟨a, List.mem_of_find?_eq_some h, List.find?_some h⟩

/-- The key fields of a row produced by `vendorStats`. -/
theorem vendorStats_key {bills : List Bill} {vid : ℕ} {s e : ℤ}
    {row : VendorBaseline} (h : vendorStats bills vid s e = some row) :
    row.vendor_id = vid ∧ row.window_start = s ∧ row.window_end = e := by
  simp only [vendorStats] at h
  split at h
  · cases h
  · simp only [Option.some.injEq] at h
    subst h
    exact ⟨rfl, rfl, rfl⟩

theorem keyMatches_of_vendorStats {bills : List Bill} {vid : ℕ} {s e : ℤ}
    {row : VendorBaseline} (h : vendorStats bills vid s e = some row) :
    baselineKeyMatches vid s e row = true := by
  obtain ⟨h1, h2, h3⟩ := vendorStats_key h
  simp [baselineKeyMatches, h1, h2, h3]

theorem overwriteStats_self (row : VendorBaseline) : overwriteStats row row = row := by
  cases row
  rfl

/-- Overwriting a row that matches the key of `row` with the statistics of
`row` yields exactly `row`. -/
theorem overwriteStats_keyMatch {vid : ℕ} {s e : ℤ} {row m : VendorBaseline}
    (hm : baselineKeyMatches vid s e m = true)
    (h1 : row.vendor_id = vid) (h2 : row.window_start = s)
    (h3 : row.window_end = e) : overwriteStats row m = row := by
  simp only [baselineKeyMatches, Bool.and_eq_true, beq_iff_eq] at hm
  cases row
  cases m
  simp_all [overwriteStats]

/-- Rows matching a different vendor key never match this one, before or
after a statistics overwrite. -/
theorem keyMatches_ne {vid vid' : ℕ} {s e : ℤ} {x row' : VendorBaseline}
    (hne : vid' ≠ vid) (hx : baselineKeyMatches vid' s e x = true) :
    baselineKeyMatches vid s e x = false ∧
      baselineKeyMatches vid s e (overwriteStats row' x) = false := by
  simp only [baselineKeyMatches, Bool.and_eq_true, beq_iff_eq] at hx
  constructor
  · simp [baselineKeyMatches, hx.1.1, hne]
  · simp [baselineKeyMatches, overwriteStats, hx.1.1, hne]

/-- The invariant the upsert maintains for a processed vendor: whenever the
vendor has statistics, the first row matching its key holds exactly them. -/
def GoodV (bills : List Bill) (start endD : ℤ) (v : Vendor)
    (bls : List VendorBaseline) : Prop :=
  ∀ row, vendorStats bills v.id start endD = some row →
    bls.find? (baselineKeyMatches v.id start endD) = some row

/-- Processing a vendor establishes its invariant. -/
theorem computeBaselinesStep_good {bills : List Bill} {start endD : ℤ}
    {v : Vendor} {acc : List VendorBaseline × ℕ} :
    GoodV bills start endD v (computeBaselinesStep bills start endD v acc).1 := by
  intro row hrow
  obtain ⟨h1, h2, h3⟩ := vendorStats_key hrow
  have hkrow : baselineKeyMatches v.id start endD row = true :=
    keyMatches_of_vendorStats hrow
  unfold computeBaselinesStep
  rw [hrow]
  simp only
  split
  · rename_i hany
    obtain ⟨a, ha⟩ := find?_isSome_of_any hany
    have hpa : baselineKeyMatches v.id start endD a = true := List.find?_some ha
    have hover : overwriteStats row a = row := overwriteStats_keyMatch hpa h1 h2 h3
    rw [find?_replaceFirst_self ha (by rw [hover]; exact hkrow), hover]
  · rename_i hany
    have hnone : acc.1.find? (baselineKeyMatches v.id start endD) = none :=
      find?_eq_none_of_any_eq_false (by simpa using hany)
    rw [find?_append_of_none hnone, List.find?_cons, hkrow]

/-- Processing any vendor preserves the invariant of every vendor. -/
theorem computeBaselinesStep_preserves_good {bills : List Bill} {start endD : ℤ}
    {v v' : Vendor} {acc : List VendorBaseline × ℕ}
    (hg : GoodV bills start endD v acc.1) :
    GoodV bills start endD v (computeBaselinesStep bills start endD v' acc).1 := by
  by_cases hid : v'.id = v.id
  · have heq : computeBaselinesStep bills start endD v' acc
        = computeBaselinesStep bills start endD v acc := by
      unfold computeBaselinesStep
      rw [hid]
    rw [heq]
    exact computeBaselinesStep_good
  · intro row hrow
    have hfind := hg row hrow
    unfold computeBaselinesStep
    cases hvs : vendorStats bills v'.id start endD with
    | none => exact hfind
    | some row' =>
        simp only
        split
        · exact Eq.trans
            (find?_replaceFirst_other fun x hx => keyMatches_ne hid hx) hfind
        · exact find?_append_of_some hfind

theorem computeBaselinesFold_preserves_good {bills : List Bill} {start endD : ℤ}
    {v : Vendor} :
    ∀ (vs : List Vendor) (acc : List VendorBaseline × ℕ),
      GoodV bills start endD v acc.1 →
      GoodV bills start endD v
        ((vs.foldl (fun a w => computeBaselinesStep bills start endD w a) acc)).1 := by
  intro vs
  induction vs with
  | nil => intro acc h; exact h
  | cons w rest ih =>
      intro acc h
      rw [List.foldl_cons]
      exact ih _ (computeBaselinesStep_preserves_good h)

theorem computeBaselinesFold_good {bills : List Bill} {start endD : ℤ} :
    ∀ (vs : List Vendor) (acc : List VendorBaseline × ℕ), ∀ v ∈ vs,
      GoodV bills start endD v
        ((vs.foldl (fun a w => computeBaselinesStep bills start endD w a) acc)).1 := by
  intro vs
  induction vs with
  | nil => intro acc v hv; cases hv
  | cons w rest ih =>
      intro acc v hv
      rw [List.foldl_cons]
      rcases List.mem_cons.1 hv with h | h
      · subst h
        exact computeBaselinesFold_preserves_good _ _ computeBaselinesStep_good
      · exact ih _ v h

/-- Re-processing a vendor whose invariant holds changes nothing. -/
theorem computeBaselinesStep_stable {bills : List Bill} {start endD : ℤ}
    {v : Vendor} {bls : List VendorBaseline} {c : ℕ}
    (hg : GoodV bills start endD v bls) :
    computeBaselinesStep bills start endD v (bls, c) = (bls, c) := by
  unfold computeBaselinesStep
  cases hvs : vendorStats bills v.id start endD with
  | none => rfl
  | some row =>
      have hfind := hg row hvs
      simp only [any_eq_true_of_find?_eq_some hfind, if_true]
      rw [replaceFirst_eq_self hfind (overwriteStats_self row)]

theorem computeBaselinesFold_stable {bills : List Bill} {start endD : ℤ} :
    ∀ {vs : List Vendor} {bls : List VendorBaseline} {c : ℕ},
      (∀ v ∈ vs, GoodV bills start endD v bls) →
      vs.foldl (fun a w => computeBaselinesStep bills start endD w a) (bls, c)
        = (bls, c) := by
  intro vs
  induction vs with
  | nil => intro _ _ _; rfl
  | cons w rest ih =>
      intro bls c hg
      rw [List.foldl_cons, computeBaselinesStep_stable (hg w (by simp))]
      exact ih fun v hv => hg v (by simp [hv])

theorem compute_baselines_frame {cfg : Settings} {today : ℤ} {tenantId : ℕ}
    {db : DB} :
    (compute_baselines cfg today tenantId db).1.bills = db.bills ∧
    (compute_baselines cfg today tenantId db).1.vendors = db.vendors ∧
    (compute_baselines cfg today tenantId db).1.anomalies = db.anomalies :=
  ⟨rfl, rfl, rfl⟩

/-- After one `compute_baselines` pass every tenant vendor satisfies its
upsert invariant. -/
theorem compute_baselines_good {cfg : Settings} {today : ℤ} {tenantId : ℕ}
    {db : DB} :
    ∀ v ∈ db.vendors.filter (fun v => v.tenant_id == tenantId),
      GoodV db.bills (today - cfg.baseline_days) today v
        (compute_baselines cfg today tenantId db).1.baselines :=
  fun v hv => computeBaselinesFold_good _ _ v hv

/-- A `compute_baselines` pass over a state where every tenant vendor already
satisfies its invariant changes nothing. -/
theorem compute_baselines_stable {cfg : Settings} {today : ℤ} {tenantId : ℕ}
    {db : DB}
    (hg : ∀ v ∈ db.vendors.filter (fun v => v.tenant_id == tenantId),
      GoodV db.bills (today - cfg.baseline_days) today v db.baselines) :
    compute_baselines cfg today tenantId db = (db, 0) := by
  unfold compute_baselines
  simp only
  rw [computeBaselinesFold_stable hg]

/-! ### Whole-run lemmas -/

theorem detect_duplicates_stepOn {Q : Anomaly → Prop} {cfg : Settings}
    {tenantId : ℕ} {db : DB}
    (h1 : ∀ b r, Q (mkDuplicateAnomaly cfg tenantId b r)) :
    StepOn Q db (detect_duplicates cfg tenantId db).1 :=
  dupGroups_stepOn (fun g _ => pairwise_of_all (fun x y => h1 x y) g.2) (db, 0)

theorem detect_price_outliers_stepOn {Q : Anomaly → Prop} {cfg : Settings}
    {tenantId : ℕ} {db : DB}
    (h2 : ∀ b z avg std, Q (mkPriceCreepAnomaly cfg tenantId b z avg std)) :
    StepOn Q db (detect_price_outliers cfg tenantId db).1 := by
  rw [detect_price_outliers_eq]
  refine ⟨rfl, rfl, rfl, specPriceCreepRows cfg tenantId db, rfl, ?_⟩
  intro a ha
  obtain ⟨p, hp, hap⟩ := List.mem_bind.1 ha
  obtain ⟨b, z, avg, std, hmk⟩ := specPriceCreepRowsFor_mem hap
  rw [hmk]
  exact h2 b z avg std

theorem detect_round_numbers_stepOn {Q : Anomaly → Prop} {cfg : Settings}
    {tenantId : ℕ} {db : DB}
    (h3 : ∀ b, Q (mkRoundNumberAnomaly cfg tenantId b)) :
    StepOn Q db (detect_round_numbers cfg tenantId db).1 :=
  roundFold_stepOn h3 _ (db, 0)

theorem tenantBillsSorted_congr {tenantId : ℕ} {db db' : DB}
    (h : db.bills = db'.bills) :
    tenantBillsSorted tenantId db = tenantBillsSorted tenantId db' := by
  unfold tenantBillsSorted
  rw [h]

theorem joinBaselines_congr {tenantId : ℕ} {db db' : DB}
    (hb : db.baselines = db'.baselines) (hv : db.vendors = db'.vendors) :
    joinBaselines db tenantId = joinBaselines db' tenantId := by
  unfold joinBaselines
  rw [hb, hv]

/-- Unfolding of `run_detection` into its four stages. -/
theorem run_detection_eq (cfg : Settings) (today : ℤ) (tenantId : ℕ) (db : DB) :
    run_detection cfg today tenantId db =
      ((detect_round_numbers cfg tenantId
          (detect_price_outliers cfg tenantId
            (detect_duplicates cfg tenantId
              (compute_baselines cfg today tenantId db).1).1).1).1,
        (detect_duplicates cfg tenantId
          (compute_baselines cfg today tenantId db).1).2 +
        (detect_price_outliers cfg tenantId
          (detect_duplicates cfg tenantId
            (compute_baselines cfg today tenantId db).1).1).2 +
        (detect_round_numbers cfg tenantId
          (detect_price_outliers cfg tenantId
            (detect_duplicates cfg tenantId
              (compute_baselines cfg today tenantId db).1).1).1).2) := rfl

/-- A full run only appends anomalies, each produced by one of the three
anomaly constructors; bills and vendors are untouched and the baselines are
those written by the baseline pass. -/
theorem run_detection_stepOn {Q : Anomaly → Prop} {cfg : Settings} {today : ℤ}
    {tenantId : ℕ} {db : DB}
    (h1 : ∀ b r, Q (mkDuplicateAnomaly cfg tenantId b r))
    (h2 : ∀ b z avg std, Q (mkPriceCreepAnomaly cfg tenantId b z avg std))
    (h3 : ∀ b, Q (mkRoundNumberAnomaly cfg tenantId b)) :
    (run_detection cfg today tenantId db).1.bills = db.bills ∧
    (run_detection cfg today tenantId db).1.vendors = db.vendors ∧
    (run_detection cfg today tenantId db).1.baselines =
      (compute_baselines cfg today tenantId db).1.baselines ∧
    ∃ l, (run_detection cfg today tenantId db).1.anomalies = db.anomalies ++ l ∧
      ∀ a ∈ l, Q a := by
  have hs : StepOn Q (compute_baselines cfg today tenantId db).1
      (run_detection cfg today tenantId db).1 :=
    stepOn_trans (detect_duplicates_stepOn h1)
      (stepOn_trans (detect_price_outliers_stepOn h2)
        (detect_round_numbers_stepOn h3))
  obtain ⟨hb, hv, hbl, l, ha, hq⟩ := hs
  refine ⟨hb.trans compute_baselines_frame.1, hv.trans compute_baselines_frame.2.1,
    hbl, l, ?_, hq⟩
  rw [ha, compute_baselines_frame.2.2]

/-- C1: running detection twice in succession with the same configuration
and date is idempotent: the second run returns `0` newly created anomalies
and leaves the state, in particular the set of Anomaly rows, unchanged. -/
theorem C1_second_run_is_noop (cfg : Settings) (today : ℤ) (tenantId : ℕ)
    (db : DB) :
    run_detection cfg today tenantId ((run_detection cfg today tenantId db).1) =
      ((run_detection cfg today tenantId db).1, 0) := by
  set r0 := compute_baselines cfg today tenantId db with hr0
  set d1 := detect_duplicates cfg tenantId r0.1 with hd1
  set d2 := detect_price_outliers cfg tenantId d1.1 with hd2
  set d3 := detect_round_numbers cfg tenantId d2.1 with hd3
  have hrun1 : (run_detection cfg today tenantId db).1 = d3.1 := rfl
  have s1 : StepOn (fun _ => True) r0.1 d1.1 :=
    detect_duplicates_stepOn fun _ _ => trivial
  have s2 : StepOn (fun _ => True) d1.1 d2.1 :=
    detect_price_outliers_stepOn fun _ _ _ _ => trivial
  have s3 : StepOn (fun _ => True) d2.1 d3.1 :=
    detect_round_numbers_stepOn fun _ => trivial
  have s23 : StepOn (fun _ => True) d1.1 d3.1 := stepOn_trans s2 s3
  have e_bills_r0 : d3.1.bills = r0.1.bills := by rw [s3.1, s2.1, s1.1]
  have e_bills : d3.1.bills = db.bills :=
    e_bills_r0.trans compute_baselines_frame.1
  have e_vendors : d3.1.vendors = db.vendors := by
    rw [s3.2.1, s2.2.1, s1.2.1, compute_baselines_frame.2.1]
  have e_baselines : d3.1.baselines = r0.1.baselines := by
    rw [s3.2.2.1, s2.2.2.1, s1.2.2.1]
  have h_compute : compute_baselines cfg today tenantId d3.1 = (d3.1, 0) := by
    apply compute_baselines_stable
    intro v hv
    rw [e_vendors] at hv
    rw [e_bills, e_baselines]
    exact compute_baselines_good v hv
  have h_dup : detect_duplicates cfg tenantId d3.1 = (d3.1, 0) := by
    apply detect_duplicates_skip
    intro g hg
    rw [tenantBillsSorted_congr e_bills_r0] at hg
    exact dupCovered_mono s23 (detect_duplicates_covers g hg)
  have h_out : detect_price_outliers cfg tenantId d3.1 = (d3.1, 0) := by
    apply detect_price_outliers_skip
    intro p hp
    have hjsame : joinBaselines d3.1 tenantId = joinBaselines d1.1 tenantId := by
      apply joinBaselines_congr
      · rw [s3.2.2.1, s2.2.2.1]
      · rw [s3.2.1, s2.2.1]
    rw [hjsame] at hp
    have e31 : d3.1.bills = d1.1.bills := by rw [s3.1, s2.1]
    rw [e31]
    exact outCovered_mono s3 (detect_price_outliers_covers p hp)
  have h_round : detect_round_numbers cfg tenantId d3.1 = (d3.1, 0) := by
    apply detect_round_numbers_skip
    intro b hb
    rw [show d3.1.bills = d2.1.bills from s3.1] at hb
    exact detect_round_numbers_covers b hb
  rw [hrun1, run_detection_eq, h_compute]
  dsimp only
  rw [h_dup]
  dsimp only
  rw [h_out]
  dsimp only
  rw [h_round]
  simp

/-! ### The per-triple row filter -/

/-- The `(tenant, bill, kind)` filter of the existence checks, as a predicate
on rows. -/
def matchesTriple (t b : ℕ) (k : String) (a : Anomaly) : Bool :=
  a.tenant_id == t && a.bill_id == some b && a.anomaly_type == k

/-! ### Group structure of the duplicate detector -/

theorem addToGroups_sublist {b : Bill} {l : List Bill}
    {gs : List ((ℕ × ℚ) × List Bill)} (h : ∀ g ∈ gs, g.2.Sublist l) :
    ∀ g ∈ addToGroups b gs, g.2.Sublist (l ++ [b]) := by
  induction gs with
  | nil =>
      intro g hg
      simp only [addToGroups, List.mem_singleton] at hg
      subst hg
      simp
  | cons g0 rest ih =>
      intro g hg
      unfold addToGroups at hg
      split at hg
      · rcases List.mem_cons.1 hg with h1 | h1
        · subst h1
          exact List.Sublist.append (h g0 (by simp)) (List.Sublist.refl [b])
        · exact List.sublist_append_of_sublist_left (h g (by simp [h1]))
      · rcases List.mem_cons.1 hg with h1 | h1
        · subst h1
          exact List.sublist_append_of_sublist_left (h g (by simp))
        · exact ih (fun g hg => h g (by simp [hg])) g h1

theorem groupBills_go_sublist :
    ∀ (bs : List Bill) (gs : List ((ℕ × ℚ) × List Bill)) (l : List Bill),
      (∀ g ∈ gs, g.2.Sublist l) →
      ∀ g ∈ bs.foldl (fun gs b => addToGroups b gs) gs, g.2.Sublist (l ++ bs) := by
  intro bs
  induction bs with
  | nil =>
      intro gs l h g hg
      simpa using h g hg
  | cons b rest ih =>
      intro gs l h g hg
      rw [List.foldl_cons] at hg
      have := ih (addToGroups b gs) (l ++ [b]) (addToGroups_sublist h) g hg
      rwa [List.append_cons]

/-- Each group of `groupBills` is an in-order sublist of the input. -/
theorem groupBills_sublist {bs : List Bill} :
    ∀ g ∈ groupBills bs, g.2.Sublist bs := by
  intro g hg
  have := groupBills_go_sublist bs [] [] (by simp) g hg
  simpa using this

theorem tenantBillsSorted_sorted {tenantId : ℕ} {db : DB} :
    (tenantBillsSorted tenantId db).Pairwise dateLE :=
  List.sorted_insertionSort dateLE _

theorem tenantBillsSorted_mem {tenantId : ℕ} {db : DB} {x : Bill}
    (h : x ∈ tenantBillsSorted tenantId db) : x ∈ db.bills :=
  List.mem_of_mem_filter ((List.perm_insertionSort dateLE _).mem_iff.1 h)

/-! ### Concrete fixtures from the testable properties of the spec -/

/-- The default configuration of `app/config.py`: `alert_min_amount = 500`,
`alert_sigma_threshold = 2`, `duplicate_day_window = 7`, `baseline_days = 90`. -/
def cfg0 : Settings :=
  { alert_min_amount := 500, alert_sigma_threshold := 2,
    duplicate_day_window := 7, baseline_days := 90 }

theorem ratSqrt_one : Rat.sqrt 1 = 1 := by decide

theorem ratSqrt_zero : Rat.sqrt 0 = 0 := by decide

/-- Vendor 1 of tenant 1, with bills of amounts 100, 100, 100, 98 inside the
window, next to vendor 2 with no bills at all. -/
def dbC4 : DB :=
  { bills :=
      [{ id := 1, tenant_id := 1, vendor_id := 1, total_amount := 100,
         txn_date := 10, has_line_items := true },
       { id := 2, tenant_id := 1, vendor_id := 1, total_amount := 100,
         txn_date := 20, has_line_items := true },
       { id := 3, tenant_id := 1, vendor_id := 1, total_amount := 100,
         txn_date := 30, has_line_items := true },
       { id := 4, tenant_id := 1, vendor_id := 1, total_amount := 98,
         txn_date := 40, has_line_items := true }],
    vendors := [{ id := 1, tenant_id := 1 }, { id := 2, tenant_id := 1 }],
    baselines := [], anomalies := [] }

/-- A tenant whose only bill lies outside the baseline window. -/
def dbC4e : DB :=
  { bills := [{ id := 1, tenant_id := 1, vendor_id := 1, total_amount := 100,
                txn_date := 200, has_line_items := true }],
    vendors := [{ id := 1, tenant_id := 1 }],
    baselines := [], anomalies := [] }

/-- C4: for every vendor with a non-empty selected bill set the calculator
writes count, arithmetic mean, Bessel-corrected sample standard deviation and
min/max — on amounts `[100, 100, 100, 98]` mean `99.5`, stddev `1`, min `98`,
max `100`, count `4` — and a vendor with an empty selected set gets no
baseline row and raises no error. -/
theorem C4_baseline_statistics :
    ((compute_baselines cfg0 90 1 dbC4).1.baselines =
      [{ vendor_id := 1, window_start := 0, window_end := 90,
         avg_amount := 199 / 2, std_amount := some 1, min_amount := 98,
         max_amount := 100, payment_count := 4 }] ∧
     (compute_baselines cfg0 90 1 dbC4).2 = 1) ∧
    (∀ (cfg : Settings) (today : ℤ) (tenantId : ℕ) (db : DB),
      (∀ v ∈ db.vendors,
        billsInWindow db.bills v.id (today - cfg.baseline_days) today = []) →
      compute_baselines cfg today tenantId db = (db, 0)) ∧
    (∀ (cfg : Settings) (today : ℤ) (tenantId : ℕ) (db : DB) (v : Vendor),
      v ∈ db.vendors → v.tenant_id = tenantId →
      ∀ row, vendorStats db.bills v.id (today - cfg.baseline_days) today = some row →
        (compute_baselines cfg today tenantId db).1.baselines.find?
          (baselineKeyMatches v.id (today - cfg.baseline_days) today) = some row) := by
  refine ⟨⟨?_, ?_⟩, ?_, ?_⟩
  · norm_num [compute_baselines, computeBaselinesStep, vendorStats, billsInWindow,
      baselineKeyMatches, amountsMin, amountsMax, dbC4, cfg0, ratSqrt_one]
  · norm_num [compute_baselines, computeBaselinesStep, vendorStats, billsInWindow,
      baselineKeyMatches, amountsMin, amountsMax, dbC4, cfg0, ratSqrt_one]
  · intro cfg today tenantId db h
    have hstep : ∀ (acc : List VendorBaseline × ℕ) (v : Vendor),
        v ∈ db.vendors.filter (fun v => v.tenant_id == tenantId) →
        computeBaselinesStep db.bills (today - cfg.baseline_days) today v acc = acc := by
      intro acc v hv
      have hnone : vendorStats db.bills v.id (today - cfg.baseline_days) today
          = none := by
        unfold vendorStats
        rw [h v (List.mem_of_mem_filter hv)]
        rfl
      unfold computeBaselinesStep
      rw [hnone]
    unfold compute_baselines
    simp only
    rw [foldl_congr_const fun acc v hv => hstep acc v hv]
  · intro cfg today tenantId db v hv ht row hrow
    have hmem : v ∈ db.vendors.filter (fun v => v.tenant_id == tenantId) := by
      simp [List.mem_filter, hv, ht]
    exact compute_baselines_good v hmem row hrow

/-- C4 witness: the empty-selection clause applied to a tenant whose only
bill lies outside the window. -/
theorem C4_baseline_statistics_witness :
    compute_baselines cfg0 90 1 dbC4e = (dbC4e, 0) :=
  C4_baseline_statistics.2.1 cfg0 90 1 dbC4e (by decide)

/-- Vendor 1 of tenant 1 with a stored baseline of mean 1000 and standard
deviation 100, and two bills of amounts 1200 and 1201. -/
def dbC5 : DB :=
  { bills :=
      [{ id := 1, tenant_id := 1, vendor_id := 1, total_amount := 1200,
         txn_date := 10, has_line_items := true },
       { id := 2, tenant_id := 1, vendor_id := 1, total_amount := 1201,
         txn_date := 20, has_line_items := true }],
    vendors := [{ id := 1, tenant_id := 1 }],
    baselines := [{ vendor_id := 1, window_start := 0, window_end := 90,
                    avg_amount := 1000, std_amount := some 100,
                    min_amount := 900, max_amount := 1100, payment_count := 5 }],
    anomalies := [] }

theorem joinBaselines_go_mem {vendors : List Vendor} {tenantId : ℕ} :
    ∀ {bls : List VendorBaseline} {p : VendorBaseline × Vendor},
      p ∈ bls.foldr (fun bl acc =>
        ((vendors.filter fun v => v.id == bl.vendor_id && v.tenant_id == tenantId).map
          fun v => (bl, v)) ++ acc) [] → p.1 ∈ bls := by
  intro bls
  induction bls with
  | nil => intro p h; cases h
  | cons bl rest ih =>
      intro p h
      rw [List.foldr_cons] at h
      rcases List.mem_append.1 h with h1 | h1
      · obtain ⟨v, -, hv⟩ := List.mem_map.1 h1
        rw [← hv]
        exact List.mem_cons_self _ _
      · exact List.mem_cons_of_mem _ (ih h1)

theorem joinBaselines_mem {db : DB} {tenantId : ℕ} {p : VendorBaseline × Vendor}
    (h : p ∈ joinBaselines db tenantId) : p.1 ∈ db.baselines :=
  joinBaselines_go_mem h

/-- C5: the price-outlier pass appends exactly the rows of the spec
description — for every stored baseline with strictly positive standard
deviation, one `price_creep` anomaly per bill of the vendor whose amount
strictly exceeds `mean + sigma * std` and which carries no existing
`price_creep` anomaly, with `z = (amount - mean) / std`, severity high iff
`z ≥ 3`, confidence `0.5 + z / 10` capped at `0.99`, metadata carrying z and
the baseline statistics, and alert-worthiness iff the amount reaches the
configured minimum or z reaches the sigma threshold — and returns their
count. On the boundary fixture (mean 1000, stddev 100, sigma 2) the bill of
amount 1200 is not flagged while 1201 is, with z = 2.01, severity medium and
confidence 0.701. A state whose baselines all have zero or undefined
standard deviation yields no anomaly at all. -/
theorem C5_price_outlier_exact_rows :
    (∀ (cfg : Settings) (tenantId : ℕ) (db : DB),
      detect_price_outliers cfg tenantId db =
        ({ db with anomalies :=
            db.anomalies ++ specPriceCreepRows cfg tenantId db },
         (specPriceCreepRows cfg tenantId db).length)) ∧
    (detect_price_outliers cfg0 1 dbC5 =
      ({ dbC5 with anomalies :=
          [{ tenant_id := 1, bill_id := some 2, anomaly_type := "price_creep",
             severity := "medium", amount := 1201,
             confidence_score := 701 / 1000,
             metadata_json := Metadata.priceCreep (201 / 100) 1000 100,
             should_alert := true, status := "open",
             resolution_notes := none }] }, 1)) ∧
    (∀ (cfg : Settings) (tenantId : ℕ) (db : DB),
      (∀ bl ∈ db.baselines, ∀ s, bl.std_amount = some s → s ≤ 0) →
      detect_price_outliers cfg tenantId db = (db, 0)) := by
  refine ⟨fun cfg tenantId db => detect_price_outliers_eq cfg tenantId db, ?_, ?_⟩
  · norm_num [detect_price_outliers, joinBaselines, outlierBaselineStep,
      outlierBillStep, flaggedBills, hasAnomalyIn, mkPriceCreepAnomaly, dbC5, cfg0]
  · intro cfg tenantId db h
    have hnil : specPriceCreepRows cfg tenantId db = [] := by
      unfold specPriceCreepRows
      rw [List.bind_eq_nil]
      intro p hp
      exact specPriceCreepRowsFor_eq_nil fun std hstd hpos b hb =>
        absurd (h p.1 (joinBaselines_mem hp) std hstd) hpos
    rw [detect_price_outliers_eq, hnil]
    simp

/-- One vendor of tenant 1 with one round-amount bill without line items:
running detection creates an anomaly, but the state already committed by
`compute_baselines` (observable when storage fails during the detectors)
holds the new baseline and none of the anomalies of the run. -/
def dbC3 : DB :=
  { bills := [{ id := 1, tenant_id := 1, vendor_id := 1, total_amount := 1500,
                txn_date := 10, has_line_items := false }],
    vendors := [{ id := 1, tenant_id := 1 }],
    baselines := [], anomalies := [] }

/-- C3: the run is not atomic. `compute_baselines` issues its own commit
(baselines.py line 76) before any detector runs, while the anomalies are
committed only by the caller after `run_detection` returns (routes.py
line 183): a storage failure between the two commits leaves the freshly
written vendor baseline observable with none of the anomalies the completed
run would have created — a partial set of the writes of the run. -/
theorem C3_partial_commit_observable :
    (observable_after_midrun_failure cfg0 90 1 dbC3).baselines ≠ dbC3.baselines ∧
    (observable_after_midrun_failure cfg0 90 1 dbC3).anomalies = dbC3.anomalies ∧
    (run_detection cfg0 90 1 dbC3).1.anomalies ≠ dbC3.anomalies := by
  refine ⟨?_, rfl, ?_⟩
  · norm_num [observable_after_midrun_failure, compute_baselines,
      computeBaselinesStep, vendorStats, billsInWindow, baselineKeyMatches,
      amountsMin, amountsMax, dbC3, cfg0]
  · norm_num [run_detection, compute_baselines, computeBaselinesStep,
      vendorStats, billsInWindow, baselineKeyMatches, amountsMin, amountsMax,
      detect_duplicates, tenantBillsSorted, groupBills, addToGroups, dupKey,
      dupGroupStep, dupOuter, dupInner, dupPairStep, round2, roundHalfEven,
      hasAnomalyIn, mkDuplicateAnomaly, dateLE,
      detect_price_outliers, joinBaselines, outlierBaselineStep, outlierBillStep,
      flaggedBills, mkPriceCreepAnomaly,
      detect_round_numbers, roundBillStep, isMultipleOf500, mkRoundNumberAnomaly,
      dbC3, cfg0, ratSqrt_zero]

/-- Three same-vendor bills of equal amount on consecutive days: every pair
qualifies as a duplicate, so one bill participates in several pairs. -/
def dbC2 : DB :=
  { bills :=
      [{ id := 1, tenant_id := 1, vendor_id := 1, total_amount := 5000,
         txn_date := 10, has_line_items := true },
       { id := 2, tenant_id := 1, vendor_id := 1, total_amount := 5000,
         txn_date := 11, has_line_items := true },
       { id := 3, tenant_id := 1, vendor_id := 1, total_amount := 5000,
         txn_date := 12, has_line_items := true }],
    vendors := [{ id := 1, tenant_id := 1 }],
    baselines := [], anomalies := [] }

/-- C2 is refuted: one detection run over the clean three-bill state `dbC2`
creates two `duplicate` anomaly rows for `(tenant 1, bill 1, "duplicate")`.
Bill 1 forms a qualifying pair with bill 2 and with bill 3; the existence
check of engine.py lines 45-53 runs in a session with `autoflush=False`
(database.py line 22), so when the pair `(1, 3)` is examined the row just
added for `(1, 2)` is still pending and invisible to the query, and a second
row for bill 1 is inserted — the claimed at-most-one row per
`(tenant, bill, kind)` triple fails already within a single run. -/
theorem C2_duplicate_double_flag :
    dbC2.anomalies = [] ∧
    ((run_detection cfg0 90 1 dbC2).1.anomalies.filter
        (matchesTriple 1 1 "duplicate")).length = 2 := by
  constructor
  · rfl
  · norm_num [run_detection, compute_baselines, computeBaselinesStep,
      vendorStats, billsInWindow, baselineKeyMatches, amountsMin, amountsMax,
      detect_duplicates, tenantBillsSorted, groupBills, addToGroups, dupKey,
      dupGroupStep, dupOuter, dupInner, dupPairStep, round2, roundHalfEven,
      hasAnomalyIn, mkDuplicateAnomaly, dateLE,
      detect_price_outliers, joinBaselines, outlierBaselineStep, outlierBillStep,
      flaggedBills, mkPriceCreepAnomaly,
      detect_round_numbers, roundBillStep, isMultipleOf500, mkRoundNumberAnomaly,
      matchesTriple, List.filter, dbC2, cfg0, ratSqrt_zero] <;> decide

/-- C9: every anomaly row a detection run creates for a tenant carries that
tenant id, a non-null bill reference, initial status `open` and no
resolution notes, and the pre-existing rows are untouched. -/
theorem C9_created_anomaly_shape (cfg : Settings) (today : ℤ) (tenantId : ℕ)
    (db : DB) :
    (run_detection cfg today tenantId db).1.anomalies.take db.anomalies.length
      = db.anomalies ∧
    ((run_detection cfg today tenantId db).1.anomalies.drop db.anomalies.length).all
      (fun a => a.tenant_id == tenantId && a.bill_id.isSome &&
        a.status == "open" && a.resolution_notes.isNone) = true := by
  have h9 := @run_detection_stepOn
    (fun a => (a.tenant_id == tenantId && a.bill_id.isSome &&
      a.status == "open" && a.resolution_notes.isNone) = true)
    cfg today tenantId db
    (fun b r => by simp [mkDuplicateAnomaly])
    (fun b z avg std => by simp [mkPriceCreepAnomaly])
    (fun b => by simp [mkRoundNumberAnomaly])
  obtain ⟨-, -, -, l, ha, hq⟩ := h9
  rw [ha]
  constructor
  · exact List.take_left db.anomalies l
  · rw [List.drop_left db.anomalies l]
    exact List.all_eq_true.2 hq

/-! ### C6: the duplicate pair -/

theorem filter_pair_tenant {tenantId : ℕ} {b1 b2 : Bill}
    (ht1 : b1.tenant_id = tenantId) (ht2 : b2.tenant_id = tenantId) :
    List.filter (fun b => b.tenant_id == tenantId) [b1, b2] = [b1, b2] := by
  simp [List.filter, ht1, ht2]

theorem insertionSort_pair {b1 b2 : Bill} :
    List.insertionSort dateLE [b1, b2] =
      if b1.txn_date ≤ b2.txn_date then [b1, b2] else [b2, b1] := by
  by_cases h : b1.txn_date ≤ b2.txn_date
  · rw [if_pos h]
    simp [List.insertionSort, List.orderedInsert, dateLE, h]
  · rw [if_neg h]
    simp [List.insertionSort, List.orderedInsert, dateLE, h]

theorem groupBills_pair {x y : Bill} (hk : dupKey x = dupKey y) :
    groupBills [x, y] = [(dupKey x, [x, y])] := by
  simp [groupBills, addToGroups, hk]

/-- The duplicate detector on a two-bill tenant whose bills share a group
key and lie within the day window: exactly one anomaly, on the first bill of
the sorted pair. -/
theorem detect_duplicates_two {cfg : Settings} {tenantId : ℕ} {x y : Bill}
    {db : DB} (hsort : tenantBillsSorted tenantId db = [x, y])
    (hk : dupKey x = dupKey y)
    (hd : |x.txn_date - y.txn_date| ≤ cfg.duplicate_day_window)
    (hnx : hasAnomaly db tenantId x.id "duplicate" = false) :
    detect_duplicates cfg tenantId db =
      ({ db with anomalies :=
          db.anomalies ++ [mkDuplicateAnomaly cfg tenantId x y] }, 1) := by
  unfold detect_duplicates
  rw [hsort, groupBills_pair hk, List.foldl_cons, List.foldl_nil]
  unfold dupGroupStep
  rw [if_neg (by simp)]
  simp only [dupOuter, dupInner, List.foldl_cons, List.foldl_nil]
  unfold dupPairStep
  have hnx' : hasAnomalyIn db.anomalies tenantId x.id "duplicate" = false := hnx
  rw [if_pos hd, if_neg (by simp [hnx'])]

/-- C6: for two bills of the same tenant and vendor whose amounts agree
after rounding to cents, whose dates lie within the duplicate window, and
which carry no duplicate anomaly yet, the detector creates exactly one
duplicate anomaly: it is attached to the earlier bill, references the other
bill in its metadata, has fixed confidence 0.95, severity high iff the
amount is at least 1000, and alert-worthiness iff the amount reaches the
configured minimum. -/
theorem C6_duplicate_pair (cfg : Settings) (tenantId : ℕ) (b1 b2 : Bill)
    (db : DB) (hb : db.bills = [b1, b2])
    (ht1 : b1.tenant_id = tenantId) (ht2 : b2.tenant_id = tenantId)
    (hv : b1.vendor_id = b2.vendor_id)
    (ha : round2 b1.total_amount = round2 b2.total_amount)
    (hd : |b1.txn_date - b2.txn_date| ≤ cfg.duplicate_day_window)
    (hn1 : hasAnomaly db tenantId b1.id "duplicate" = false)
    (hn2 : hasAnomaly db tenantId b2.id "duplicate" = false) :
    detect_duplicates cfg tenantId db =
      ({ db with anomalies := db.anomalies ++
          [if b1.txn_date ≤ b2.txn_date
           then { tenant_id := tenantId, bill_id := some b1.id,
                  anomaly_type := "duplicate",
                  severity := if b1.total_amount ≥ 1000 then "high" else "medium",
                  amount := b1.total_amount, confidence_score := 95 / 100,
                  metadata_json := Metadata.duplicate b2.id b1.id,
                  should_alert := decide (b1.total_amount ≥ cfg.alert_min_amount),
                  status := "open", resolution_notes := none }
           else { tenant_id := tenantId, bill_id := some b2.id,
                  anomaly_type := "duplicate",
                  severity := if b2.total_amount ≥ 1000 then "high" else "medium",
                  amount := b2.total_amount, confidence_score := 95 / 100,
                  metadata_json := Metadata.duplicate b1.id b2.id,
                  should_alert := decide (b2.total_amount ≥ cfg.alert_min_amount),
                  status := "open", resolution_notes := none }] }, 1) := by
  have hsort : tenantBillsSorted tenantId db =
      if b1.txn_date ≤ b2.txn_date then [b1, b2] else [b2, b1] := by
    unfold tenantBillsSorted
    rw [hb, filter_pair_tenant ht1 ht2, insertionSort_pair]
  have hk : dupKey b1 = dupKey b2 := by
    unfold dupKey
    rw [hv, ha]
  by_cases hle : b1.txn_date ≤ b2.txn_date
  · rw [if_pos hle] at hsort
    rw [detect_duplicates_two hsort hk hd hn1, if_pos hle]
    rfl
  · rw [if_neg hle] at hsort
    have hd2 : |b2.txn_date - b1.txn_date| ≤ cfg.duplicate_day_window := by
      rwa [abs_sub_comm]
    rw [detect_duplicates_two hsort hk.symm hd2 hn2, if_neg hle]
    rfl

/-- First bill of the spec duplicate test: amount 5000, the later date. -/
def billC6a : Bill :=
  { id := 1, tenant_id := 1, vendor_id := 1, total_amount := 5000,
    txn_date := 13, has_line_items := true }

/-- Second bill of the spec duplicate test: amount 5000, three days earlier. -/
def billC6b : Bill :=
  { id := 2, tenant_id := 1, vendor_id := 1, total_amount := 5000,
    txn_date := 10, has_line_items := true }

/-- The two-bill tenant of the spec duplicate test. -/
def dbC6 : DB :=
  { bills := [billC6a, billC6b], vendors := [{ id := 1, tenant_id := 1 }],
    baselines := [], anomalies := [] }

/-- C6 witness: amount 5000, dates three days apart, window 7 — exactly one
duplicate anomaly on the earlier bill, severity high, confidence 0.95. -/
theorem C6_duplicate_pair_witness :
    detect_duplicates cfg0 1 dbC6 =
      ({ dbC6 with anomalies :=
          [{ tenant_id := 1, bill_id := some 2, anomaly_type := "duplicate",
             severity := "high", amount := 5000, confidence_score := 95 / 100,
             metadata_json := Metadata.duplicate 1 2, should_alert := true,
             status := "open", resolution_notes := none }] }, 1) := by
  have h := C6_duplicate_pair cfg0 1 billC6a billC6b dbC6 rfl rfl rfl rfl rfl
    (by norm_num [billC6a, billC6b, cfg0]) rfl rfl
  rw [h]
  norm_num [billC6a, billC6b, dbC6, cfg0]

/-! ### C7: the round-number detector on a single bill -/

/-- One step of the round-number loop, with the decision written as a single
condition. -/
theorem roundBillStep_eq {cfg : Settings} {tenantId : ℕ} {b : Bill} {db : DB}
    {c : ℕ} :
    roundBillStep cfg tenantId db.anomalies (db, c) b =
      if b.has_line_items = false ∧ cfg.alert_min_amount ≤ b.total_amount ∧
         isMultipleOf500 b.total_amount = true ∧
         hasAnomaly db tenantId b.id "round_number" = false
      then ({ db with anomalies :=
          db.anomalies ++ [mkRoundNumberAnomaly cfg tenantId b] }, c + 1)
      else (db, c) := by
  simp only [roundBillStep]
  by_cases h1 : b.has_line_items = true
  · rw [if_pos h1, if_neg (by simp [h1])]
  · rw [if_neg h1]
    by_cases h2 : b.total_amount < cfg.alert_min_amount
    · rw [if_pos h2, if_neg (fun hc => absurd h2 (not_lt.mpr hc.2.1))]
    · rw [if_neg h2]
      by_cases h3 : isMultipleOf500 b.total_amount = true
      · rw [if_pos h3]
        by_cases h4 : hasAnomalyIn db.anomalies tenantId b.id "round_number" = true
        · have h4' : hasAnomaly db tenantId b.id "round_number" = true := h4
          rw [if_pos h4, if_neg (fun hc => by rw [hc.2.2.2] at h4'; cases h4')]
        · have h4' : hasAnomaly db tenantId b.id "round_number" = false := by
            simpa using h4
          rw [if_neg h4, if_pos ⟨by simpa using h1, not_lt.mp h2, h3, h4'⟩]
      · rw [if_neg h3, if_neg (fun hc => h3 hc.2.2.1)]

/-- C7: on a single-bill tenant the round-number detector fires exactly when
the bill has no known line items, its amount reaches `alert_min_amount`, the
amount is an exact multiple of 500, and no `round_number` anomaly exists yet
for (tenant, bill); the created anomaly has severity low, fixed confidence
0.6, metadata carrying the round value, and alert-worthiness true whenever
the detector fires. -/
theorem C7_round_number (cfg : Settings) (tenantId : ℕ) (b : Bill) (db : DB)
    (hb : db.bills = [b]) :
    detect_round_numbers cfg tenantId db =
      if b.tenant_id = tenantId ∧ b.has_line_items = false ∧
         cfg.alert_min_amount ≤ b.total_amount ∧
         isMultipleOf500 b.total_amount = true ∧
         hasAnomaly db tenantId b.id "round_number" = false
      then ({ db with anomalies := db.anomalies ++
          [{ tenant_id := tenantId, bill_id := some b.id,
             anomaly_type := "round_number", severity := "low",
             amount := b.total_amount, confidence_score := 6 / 10,
             metadata_json := Metadata.roundNumber b.total_amount,
             should_alert := decide (b.total_amount ≥ cfg.alert_min_amount),
             status := "open", resolution_notes := none }] }, 1)
      else (db, 0) := by
  unfold detect_round_numbers
  rw [hb]
  by_cases h1 : b.tenant_id = tenantId
  · rw [show List.filter (fun x => x.tenant_id == tenantId) [b] = [b] from
        by simp [h1],
      List.foldl_cons, List.foldl_nil, roundBillStep_eq]
    by_cases hc : b.has_line_items = false ∧
        cfg.alert_min_amount ≤ b.total_amount ∧
        isMultipleOf500 b.total_amount = true ∧
        hasAnomaly db tenantId b.id "round_number" = false
    · rw [if_pos hc, if_pos ⟨h1, hc.1, hc.2.1, hc.2.2.1, hc.2.2.2⟩, hb]
      rfl
    · rw [if_neg hc,
        if_neg fun h5 => hc ⟨h5.2.1, h5.2.2.1, h5.2.2.2.1, h5.2.2.2.2⟩]
  · rw [show List.filter (fun x => x.tenant_id == tenantId) [b]
        = ([] : List Bill) from by simp [h1],
      List.foldl_nil, if_neg fun hc => h1 hc.1]

/-- The single-bill tenant of the spec round-number test: amount 1500, no
line items. -/
def dbC7 : DB :=
  { bills := [{ id := 1, tenant_id := 1, vendor_id := 1, total_amount := 1500,
                txn_date := 10, has_line_items := false }],
    vendors := [{ id := 1, tenant_id := 1 }],
    baselines := [], anomalies := [] }

/-- C7 witness: a no-line-items bill of 1500 with `alert_min_amount = 500`
yields one `round_number` anomaly with severity low, confidence 0.6 and
alert-worthiness true. -/
theorem C7_round_number_witness :
    detect_round_numbers cfg0 1 dbC7 =
      ({ dbC7 with anomalies :=
          [{ tenant_id := 1, bill_id := some 1, anomaly_type := "round_number",
             severity := "low", amount := 1500, confidence_score := 6 / 10,
             metadata_json := Metadata.roundNumber 1500, should_alert := true,
             status := "open", resolution_notes := none }] }, 1) := by
  have h := C7_round_number cfg0 1
    { id := 1, tenant_id := 1, vendor_id := 1, total_amount := 1500,
      txn_date := 10, has_line_items := false } dbC7 rfl
  rw [h]
  norm_num [dbC7, cfg0, isMultipleOf500, hasAnomaly, hasAnomalyIn]

/-! ### C8: the baseline upsert invariant -/

/-- At most one baseline row exists per `(vendor, window_start, window_end)`
key. -/
def AtMostOneBaseline (bls : List VendorBaseline) : Prop :=
  ∀ vid s e, ((bls.filter (baselineKeyMatches vid s e)).length) ≤ 1

theorem keyMatches_overwriteStats (vid : ℕ) (s e : ℤ) (row x : VendorBaseline) :
    baselineKeyMatches vid s e (overwriteStats row x)
      = baselineKeyMatches vid s e x := rfl

theorem computeBaselinesStep_atMostOneB {bills : List Bill} {start endD : ℤ}
    {v : Vendor} {acc : List VendorBaseline × ℕ}
    (h : AtMostOneBaseline acc.1) :
    AtMostOneBaseline (computeBaselinesStep bills start endD v acc).1 := by
  unfold computeBaselinesStep
  cases hvs : vendorStats bills v.id start endD with
  | none => exact h
  | some row =>
      simp only
      split
      · intro vid s e
        rw [length_filter_replaceFirst fun x _ => keyMatches_overwriteStats vid s e row x]
        exact h vid s e
      · rename_i hany
        intro vid s e
        rw [List.filter_append]
        cases hq : baselineKeyMatches vid s e row with
        | false =>
            rw [show List.filter (baselineKeyMatches vid s e) [row]
                = ([] : List VendorBaseline) from by simp [hq]]
            rw [List.append_nil]
            exact h vid s e
        | true =>
            obtain ⟨h1, h2, h3⟩ := vendorStats_key hvs
            have hkey : vid = v.id ∧ s = start ∧ e = endD := by
              simp only [baselineKeyMatches, Bool.and_eq_true, beq_iff_eq,
                h1, h2, h3] at hq
              exact ⟨hq.1.1.symm, hq.1.2.symm, hq.2.symm⟩
            obtain ⟨e1, e2, e3⟩ := hkey
            rw [e1, e2, e3] at hq ⊢
            have hnil : acc.1.filter (baselineKeyMatches v.id start endD) = [] := by
              rw [List.filter_eq_nil_iff]
              intro x hx hpx
              have : acc.1.any (baselineKeyMatches v.id start endD) = true :=
                List.any_eq_true.2 ⟨x, hx, hpx⟩
              exact absurd this (by simpa using hany)
            rw [hnil, List.nil_append]
            exact le_trans (List.length_filter_le _ _) (by simp)

theorem compute_baselines_atMostOneB {cfg : Settings} {today : ℤ}
    {tenantId : ℕ} {db : DB} (h : AtMostOneBaseline db.baselines) :
    AtMostOneBaseline (compute_baselines cfg today tenantId db).1.baselines := by
  unfold compute_baselines
  simp only
  have hfold : ∀ (vs : List Vendor) (acc : List VendorBaseline × ℕ),
      AtMostOneBaseline acc.1 →
      AtMostOneBaseline ((vs.foldl (fun a w =>
        computeBaselinesStep db.bills (today - cfg.baseline_days) today w a) acc)).1 := by
    intro vs
    induction vs with
    | nil => intro acc hh; exact hh
    | cons w rest ih =>
        intro acc hh
        rw [List.foldl_cons]
        exact ih _ (computeBaselinesStep_atMostOneB hh)
  exact hfold _ (db.baselines, 0) h

/-- C8: after any number of baseline-calculator runs (over any dates and
configurations) at most one VendorBaseline row exists per
`(vendor, window_start, window_end)` tuple: an existing row for the exact
window is overwritten in place, otherwise a single new row is inserted. -/
theorem C8_baseline_upsert_unique (runs : List (Settings × ℤ × ℕ)) (db : DB)
    (h : AtMostOneBaseline db.baselines) :
    AtMostOneBaseline ((runs.foldl (fun d r =>
      (compute_baselines r.1 r.2.1 r.2.2 d).1) db)).baselines := by
  induction runs generalizing db with
  | nil => exact h
  | cons r rest ih =>
      rw [List.foldl_cons]
      exact ih _ (compute_baselines_atMostOneB h)

/-- C8 witness: two baseline runs on the same day over the four-bill tenant
keep the per-window uniqueness. -/
theorem C8_baseline_upsert_unique_witness :
    AtMostOneBaseline ((([(cfg0, 90, 1), (cfg0, 90, 1)] :
      List (Settings × ℤ × ℕ)).foldl (fun d r =>
        (compute_baselines r.1 r.2.1 r.2.2 d).1) dbC4).baselines) :=
  C8_baseline_upsert_unique [(cfg0, 90, 1), (cfg0, 90, 1)] dbC4 (by
    intro vid s e
    simp [dbC4])

/-! ### C10: duplicate anomalies respect the transaction-date order -/

/-- C10: the duplicate detector examines the bills of the tenant in
ascending transaction-date order, so every duplicate anomaly it creates
flags a primary bill whose transaction date is at most that of the related
bill recorded in its metadata. -/
theorem C10_duplicate_date_order (cfg : Settings) (tenantId : ℕ) (db : DB) :
    ∀ a ∈ (detect_duplicates cfg tenantId db).1.anomalies.drop
        db.anomalies.length,
      ∃ x y : Bill, x ∈ db.bills ∧ y ∈ db.bills ∧ x.txn_date ≤ y.txn_date ∧
        a.bill_id = some x.id ∧
        a.metadata_json = Metadata.duplicate y.id x.id := by
  have hstep : StepOn (fun a => ∃ x y : Bill, x ∈ db.bills ∧ y ∈ db.bills ∧
      x.txn_date ≤ y.txn_date ∧ a.bill_id = some x.id ∧
      a.metadata_json = Metadata.duplicate y.id x.id) db
      (detect_duplicates cfg tenantId db).1 := by
    refine dupGroups_stepOn ?_ (db, 0)
    intro g hg
    have hsub := groupBills_sublist g hg
    have hsorted : g.2.Pairwise dateLE :=
      List.Pairwise.sublist hsub tenantBillsSorted_sorted
    refine List.Pairwise.imp_of_mem ?_ hsorted
    intro x y hx hy hxy
    exact ⟨x, y, tenantBillsSorted_mem (hsub.subset hx),
      tenantBillsSorted_mem (hsub.subset hy), hxy, rfl, rfl⟩
  obtain ⟨-, -, -, l, ha, hq⟩ := hstep
  rw [ha, List.drop_left db.anomalies l]
  exact hq

/-- The anomaly the duplicate detector creates on `dbC6`. -/
def anomC10 : Anomaly :=
  { tenant_id := 1, bill_id := some 2, anomaly_type := "duplicate",
    severity := "high", amount := 5000, confidence_score := 95 / 100,
    metadata_json := Metadata.duplicate 1 2, should_alert := true,
    status := "open", resolution_notes := none }

/-- C10 witness: on the two-bill tenant the created anomaly flags the bill
of day 10 and references the bill of day 13. -/
theorem C10_duplicate_date_order_witness :
    ∃ x y : Bill, x ∈ dbC6.bills ∧ y ∈ dbC6.bills ∧
      x.txn_date ≤ y.txn_date ∧ anomC10.bill_id = some x.id ∧
      anomC10.metadata_json = Metadata.duplicate y.id x.id := by
  apply C10_duplicate_date_order cfg0 1 dbC6
  norm_num [detect_duplicates, tenantBillsSorted, groupBills, addToGroups,
    dupKey, dupGroupStep, dupOuter, dupInner, dupPairStep, round2,
    roundHalfEven, hasAnomalyIn, mkDuplicateAnomaly, dateLE, billC6a, billC6b,
    dbC6, cfg0, anomC10]

end Auditap
